import Mathlib

/-!
Shallow embedding of the SingleApplication instance-arbitration and
local-messaging core (SingleApplication.cpp, SingleApplication_p.cpp,
SingleApplication_p.h).  Bytes are modelled as natural numbers below 256,
machine integers as natural numbers reduced modulo the relevant power of
two, and the Qt primitives the source calls (qChecksum, QDataStream
big-endian framing, QCryptographicHash Sha256, toBase64) are embedded by
their documented algorithms.
-/

set_option maxRecDepth 100000

namespace SingleApp

/-! ## Byte-level helpers -/

/-- Big-endian encoding of `v` into `w` bytes, as QDataStream writes
multi-byte integers (its default byte order). -/
def beBytes (w : Nat) (v : Nat) : List Nat :=
  match w with
  | 0 => []
  | n + 1 => (v >>> (8 * n)) % 256 :: beBytes n v

/-- Big-endian decoding of a byte list, as QDataStream reads
multi-byte integers. -/
def beDecode (bs : List Nat) : Nat :=
  bs.foldl (fun acc b => acc * 256 + b % 256) 0

/-- Little-endian encoding used for the host-order in-memory image of
the shared block on x86. -/
def leBytes (w : Nat) (v : Nat) : List Nat :=
  match w with
  | 0 => []
  | n + 1 => v % 256 :: leBytes n (v / 256)

/-! ## qChecksum: the CRC-16 used by Qt

The source guards both the shared memory block and the handshake frame
with qChecksum.  Qt implements it as a nibble-table CRC-16 (ISO 3309
polynomial, reflected), initial value 0xffff, final complement. -/

/-- The 16-entry nibble table of the Qt qChecksum implementation. -/
def crcTbl : List Nat :=
  [0x0000, 0x1081, 0x2102, 0x3183,
   0x4204, 0x5285, 0x6306, 0x7387,
   0x8408, 0x9489, 0xa50a, 0xb58b,
   0xc60c, 0xd68d, 0xe70e, 0xf78f]

/-- Table lookup; callers always pass an index already masked to 4 bits. -/
def crcTblAt (i : Nat) : Nat := crcTbl.getD i 0

/-- One nibble step of qChecksum:
crc = ((crc >> 4) & 0x0fff) ^ crc_tbl[(crc ^ c) & 15]. -/
def nibbleStep (crc c : Nat) : Nat :=
  ((crc >>> 4) &&& 0x0fff) ^^^ crcTblAt ((crc ^^^ c) &&& 15)

/-- One byte of qChecksum: low nibble first, then the high nibble. -/
def byteStep (crc c : Nat) : Nat :=
  nibbleStep (nibbleStep crc c) (c >>> 4)

/-- The CRC register after folding a byte list into an initial value. -/
def crcAcc (crc : Nat) (data : List Nat) : Nat :=
  data.foldl byteStep crc

/-- qChecksum over a byte list: register starts at 0xffff and the final
value is complemented within 16 bits (`~crc & 0xffff`, which for a
16-bit register equals xor with 0xffff). -/
def qChecksum (data : List Nat) : Nat :=
  crcAcc 0xffff data ^^^ 0xffff

/-! ## Configuration options

Modelled from the spec: the `SingleApplication::Mode` flag enumeration
lives in SingleApplication.h, which is not among the provided sources;
section 4.1 of the spec lists the recognized options ExcludeAppVersion,
ExcludeAppPath and User, and sections 4.2 and 4.3 use the
secondary-notification option.  The source only ever queries flags via
`m_options.testFlag(...)`, so the option set is embedded as a record of
booleans. -/
structure Opts where
  excludeAppVersion : Bool
  excludeAppPath : Bool
  userScope : Bool
  secondaryNotification : Bool
  deriving DecidableEq

/-! ## Handshake wire format

`connectToPrimary` serializes, with QDataStream defaults (big-endian):
the identifier as a QByteArray (u32 length prefix then raw bytes), one
connection-type byte, the u32 instance number, then a u16 qChecksum over
the on-stream bytes preceding the checksum field; the whole body is
prefixed by its length as a u64.  Connection type codes from
SingleApplication_p.h: InvalidConnection 0, NewInstance 1,
SecondaryInstance 2, Reconnect 3. -/

/-- The handshake body built by `connectToPrimary`: length-prefixed
identifier, connection-type byte, instance id, trailing qChecksum over
the preceding body bytes. -/
def serializeInitBody (name : List Nat) (ct : Nat) (inst : Nat) : List Nat :=
  let core := beBytes 4 name.length ++ name ++ [ct % 256] ++ beBytes 4 inst
  core ++ beBytes 2 (qChecksum core)

/-- The full frame written to the socket: the 8-byte big-endian body
length, then the body. -/
def serializeInitMessage (name : List Nat) (ct : Nat) (inst : Nat) : List Nat :=
  beBytes 8 (serializeInitBody name ct inst).length ++ serializeInitBody name ct inst

/-- Read `n` raw bytes from a stream, as QDataStream raw reads do;
reading past the end puts the stream in an error state, modelled by
`none`. -/
def readBytes (n : Nat) (s : List Nat) : Option (List Nat × List Nat) :=
  if n ≤ s.length then some (s.take n, s.drop n) else none

/-- Read a big-endian unsigned integer of `w` bytes. -/
def readBE (w : Nat) (s : List Nat) : Option (Nat × List Nat) :=
  (readBytes w s).map (fun p => (beDecode p.1, p.2))

/-- Read a serialized QByteArray: u32 length then raw bytes; the length
0xffffffff denotes a null array and carries no bytes. -/
def readQByteArray (s : List Nat) : Option (List Nat × List Nat) :=
  (readBE 4 s).bind (fun p =>
    if p.1 = 0xffffffff then some ([], p.2) else readBytes p.1 p.2)

/-- The field reads of `readInitMessageBody`: identifier echo,
connection-type byte, instance id, trailing checksum.  `none` models a
QDataStream status other than Ok (a decoding error). -/
def parseInitBody (body : List Nat) : Option (List Nat × Nat × Nat × Nat) :=
  (readQByteArray body).bind (fun p1 =>
  (readBE 1 p1.2).bind (fun p2 =>
  (readBE 4 p2.2).bind (fun p3 =>
  (readBE 2 p3.2).map (fun p4 =>
  (p1.1, p2.1, p3.1, p4.1)))))

/-- The validity test of `readInitMessageBody`: decoding succeeded, the
identifier echo equals the local block server name, and the decoded
checksum equals qChecksum recomputed over the body bytes preceding the
checksum field (`messageBytes.length() - sizeof(quint16)`; the
subtraction is natural-number truncated here, while the source would
feed a huge unsigned length to qChecksum for bodies shorter than two
bytes - such bodies already fail the decode test, so validity agrees). -/
def bodyValid (expected : List Nat) (body : List Nat) : Bool :=
  match parseInitBody body with
  | none => false
  | some (name, _, _, chk) =>
      decide (name = expected) &&
      decide (chk = qChecksum (body.take (body.length - 2)))

/-! ## The primary-side per-connection state machine

`onConnectionEstablished` registers a fresh ConnectionInfo (stage
Header, message length 0, instance id 0) and wires three callbacks:
readyRead dispatches on the stage, aboutToClose flushes any bytes still
buffered as one final message delivery, disconnected discards the
record.  Events are the two signals surfaced to the host. -/

inductive Stage where
  | header
  | body
  | connected
  deriving DecidableEq, Repr

inductive Event where
  | instanceStarted
  | messageReceived (instanceId : Nat) (payload : List Nat)
  deriving DecidableEq, Repr

/-- Connection record plus the state of its socket: the ConnectionInfo
fields of the source, the unread bytes buffered on the socket, and
whether the primary has closed the socket. -/
structure Conn where
  stage : Stage
  messageLength : Nat
  instanceId : Nat
  buffer : List Nat
  closed : Bool
  deriving DecidableEq, Repr

/-- A freshly accepted connection: ConnectionInfo default-initializes
stage Header, message length 0, instance id 0. -/
def initialConn : Conn :=
  { stage := Stage.header, messageLength := 0, instanceId := 0,
    buffer := [], closed := false }

/-- `socket->close()` on the primary side.  QIODevice::close emits
aboutToClose before discarding buffers, so the connected handler runs
`onClientConnectionClosed`, which delivers any still-unread bytes as a
final messageReceived tagged with the instance id currently recorded in
the connection map; then the buffer is gone and the socket is closed. -/
def closeSocket (c : Conn) : Conn × List Event :=
  (({ c with buffer := [], closed := true }),
   if c.buffer = [] then []
   else [Event.messageReceived c.instanceId c.buffer])

/-- `readInitMessageBody`: wait for the full body, take it off the
socket, decode and validate; on failure close the socket; on success
record the instance id, move to Connected, raise instanceStarted for
NewInstance (or SecondaryInstance under the secondary-notification
option), and deliver any bytes already buffered beyond the handshake. -/
def readBodyStep (o : Opts) (expected : List Nat) (c : Conn) :
    Conn × List Event :=
  if c.buffer.length < c.messageLength then (c, [])
  else
    let messageBytes := c.buffer.take c.messageLength
    let rest := c.buffer.drop c.messageLength
    let c1 := { c with buffer := rest }
    match parseInitBody messageBytes with
    | none => closeSocket c1
    | some (name, ct, inst, chk) =>
        if name = expected ∧
           chk = qChecksum (messageBytes.take (messageBytes.length - 2)) then
          let c2 := { c1 with instanceId := inst, stage := Stage.connected }
          let started :=
            if ct = 1 ∨ (ct = 2 ∧ o.secondaryNotification = true) then
              [Event.instanceStarted]
            else []
          if c2.buffer = [] then (c2, started)
          else ({ c2 with buffer := [] },
                started ++ [Event.messageReceived inst c2.buffer])
        else closeSocket c1

/-- `readInitMessageHeader`: wait for the 8-byte length field, decode it,
move to the Body stage, and parse the body at once when it is already
buffered. -/
def readHeaderStep (o : Opts) (expected : List Nat) (c : Conn) :
    Conn × List Event :=
  if c.buffer.length < 8 then (c, [])
  else
    let len := beDecode (c.buffer.take 8)
    let c1 : Conn :=
      { c with buffer := c.buffer.drop 8, stage := Stage.body,
               messageLength := len }
    if len ≤ c1.buffer.length then readBodyStep o expected c1 else (c1, [])

/-- The readyRead dispatch of `onConnectionEstablished`: by stage, parse
the header, parse the body, or deliver all buffered bytes verbatim. -/
def readyRead (o : Opts) (expected : List Nat) (c : Conn) :
    Conn × List Event :=
  match c.stage with
  | Stage.header => readHeaderStep o expected c
  | Stage.body => readBodyStep o expected c
  | Stage.connected =>
      ({ c with buffer := [] },
       [Event.messageReceived c.instanceId c.buffer])

/-- Arrival of a chunk of bytes on the connection: nothing reaches a
closed socket; on an open socket the bytes are appended to the buffer
and readyRead fires. -/
def deliver (o : Opts) (expected : List Nat) (c : Conn) (chunk : List Nat) :
    Conn × List Event :=
  if c.closed then (c, [])
  else readyRead o expected { c with buffer := c.buffer ++ chunk }

/-- Feed a sequence of byte chunks to a connection, collecting the
events raised along the way in order. -/
def feedChunks (o : Opts) (expected : List Nat) (c : Conn) :
    List (List Nat) → Conn × List Event
  | [] => (c, [])
  | chunk :: rest =>
      let p := deliver o expected c chunk
      let q := feedChunks o expected p.1 rest
      (q.1, p.2 ++ q.2)

/-- The announced body length of a raw stream: its first 8 bytes,
big-endian. -/
def headerOf (s : List Nat) : Nat := beDecode (s.take 8)

/-- The handshake body slice of a raw stream: the announced number of
bytes following the 8-byte header. -/
def bodyOf (s : List Nat) : List Nat := (s.drop 8).take (headerOf s)

/-! ## The Coordination Block (struct InstancesInfo)

Declaration order in SingleApplication_p.h: `bool m_primary; quint32
m_secondary; qint64 m_primaryPid; quint16 m_checksum; char
m_primaryUser[128];`.  On the x86-64 ABI the offsets are 0, 4, 8, 16
and 18, so `offsetof(InstancesInfo, m_checksum) = 16`: the checksum
field sits between the pid and the user buffer.  `blockChecksum()`
computes qChecksum over the first `offsetof(InstancesInfo, m_checksum)`
bytes of the segment. -/

structure Block where
  primary : Bool
  secondary : Nat
  primaryPid : Int
  checksum : Nat
  primaryUser : List Nat
  deriving DecidableEq

/-- The in-memory byte image of the struct, little-endian (host order),
with the padding bytes after `m_primary` zero, as the freshly created
shared segment is zero-filled and nothing ever writes the padding. -/
def blockBytes (b : Block) : List Nat :=
  [if b.primary then 1 else 0] ++ [0, 0, 0] ++
  leBytes 4 b.secondary ++
  leBytes 8 (b.primaryPid % (2 ^ 64 : Int)).toNat ++
  leBytes 2 b.checksum ++
  b.primaryUser

/-- `blockChecksum()`: qChecksum over the bytes of the segment strictly
before the checksum field, that is the first 16 bytes of the image. -/
def blockChecksum (b : Block) : Nat :=
  qChecksum ((blockBytes b).take 16)

/-- `initializeMemoryBlock()`: clear the primary flag, the counter and
the pid, terminate the user buffer at its first byte, then store the
recomputed checksum. -/
def initializeMemoryBlock (b : Block) : Block :=
  let b1 : Block :=
    { b with primary := false, secondary := 0, primaryPid := -1,
             primaryUser := b.primaryUser.set 0 0 }
  { b1 with checksum := blockChecksum b1 }

/-- `usernameSize = qMin(username.size(), primaryUserSize - 1)` bytes of
the username are copied and a terminator is placed right after them;
bytes beyond that keep the previous contents of the buffer. -/
def writeUser (old : List Nat) (username : List Nat) : List Nat :=
  let n := min username.length 127
  ((username.take n ++ old.drop n).set n 0).take 128 ++ old.drop 128

/-- The shared block update of `startPrimary()`: raise the primary flag,
record the pid and the username, store the recomputed checksum.  The
secondary counter is left untouched. -/
def startPrimaryBlock (b : Block) (pid : Int) (username : List Nat) : Block :=
  let b1 : Block :=
    { b with primary := true, primaryPid := pid,
             primaryUser := writeUser b.primaryUser username }
  { b1 with checksum := blockChecksum b1 }

/-- The shared block update of the destructor of a primary instance
(`m_server` non-null): drop the primary flag, reset the pid, terminate
the user buffer, store the recomputed checksum.  The secondary counter
is left untouched. -/
def destructorBlock (b : Block) : Block :=
  let b1 : Block :=
    { b with primary := false, primaryPid := -1,
             primaryUser := b.primaryUser.set 0 0 }
  { b1 with checksum := blockChecksum b1 }

/-- The admission of one more secondary instance under the lock:
`m_secondary += 1` (quint32 arithmetic), checksum recomputed. -/
def admitBlock (b : Block) : Block :=
  let b1 : Block := { b with secondary := (b.secondary + 1) % 4294967296 }
  { b1 with checksum := blockChecksum b1 }

/-- The instance id such an admission assigns:
`m_instanceNumber = instanceInfo->m_secondary` after the increment. -/
def admitId (b : Block) : Nat := (b.secondary + 1) % 4294967296

/-- The ids handed out by `n` successive admissions. -/
def admitIds (b : Block) : Nat → List Nat
  | 0 => []
  | n + 1 => admitId b :: admitIds (admitBlock b) n

/-! ## The consistency-wait loop

One iteration of the `while (true)` loop of the constructor: lock; break
when the stored checksum matches the recomputed one; reinitialize the
block when the elapsed time exceeds 5000 ms; unlock and sleep.  The
sleep is `QThread::sleep(QRandomGenerator::global()->bounded(8u, 18u))`:
`QThread::sleep` takes seconds, so a draw r from [8, 18) suspends the
process for `1000 * r` milliseconds. -/

inductive LoopAction where
  | proceed
  | retryAfterSleep (sleptMs : Nat)
  deriving DecidableEq

/-- One iteration of the consistency-wait loop, given the elapsed
milliseconds and the random draw r from [8, 18). -/
def loopIteration (elapsedMs : Nat) (r : Nat) (b : Block) :
    Block × LoopAction :=
  if blockChecksum b = b.checksum then (b, LoopAction.proceed)
  else
    let b1 := if elapsedMs > 5000 then initializeMemoryBlock b else b
    (b1, LoopAction.retryAfterSleep (1000 * r))

/-! ## The arbitration tail of the constructor

After the loop breaks while holding the lock: a cleared primary flag
makes this process the primary; otherwise it is admitted as a secondary
when allowed (optionally notifying the primary), or it connects to the
primary as NewInstance and the process terminates through
`::exit(EXIT_SUCCESS)` (exit status 0). -/

inductive Outcome where
  | primaryRole
  | secondaryRole (id : Nat)
  | terminated (exitStatus : Nat)
  deriving DecidableEq

structure ArbResult where
  outcome : Outcome
  block : Block
  listenerStarted : Bool
  sentHandshakes : List Nat
  instanceNumber : Nat
  deriving DecidableEq

/-- The role decision run under the lock once the block is consistent.
`m_instanceNumber` starts as `quint32(-1) = 4294967295` and is assigned
only on the primary (0) and secondary (the new counter value) paths;
`sentHandshakes` records the connection-type codes passed to
`connectToPrimary`. -/
def arbitrate (allowSecondary : Bool) (o : Opts) (pid : Int)
    (username : List Nat) (b : Block) : ArbResult :=
  if b.primary = false then
    { outcome := Outcome.primaryRole,
      block := startPrimaryBlock b pid username,
      listenerStarted := true, sentHandshakes := [], instanceNumber := 0 }
  else if allowSecondary then
    { outcome := Outcome.secondaryRole (admitId b),
      block := admitBlock b,
      listenerStarted := false,
      sentHandshakes := if o.secondaryNotification then [2] else [],
      instanceNumber := admitId b }
  else
    { outcome := Outcome.terminated 0,
      block := b,
      listenerStarted := false, sentHandshakes := [1],
      instanceNumber := 4294967295 }

/-- `sendMessage`: a primary instance has nobody to connect to and
returns false at once; otherwise the socket is brought up via
`connectToPrimary(timeout, Reconnect)`, the payload is written, and the
result is whether the write completed within the timeout. -/
inductive SockAct where
  | connectAs (connectionType : Nat)
  | writeBytes (payload : List Nat)
  | flush
  deriving DecidableEq

def sendMessageModel (isPrimaryRole : Bool) (writeCompleted : Bool)
    (message : List Nat) : Bool × List SockAct :=
  if isPrimaryRole then (false, [])
  else
    (writeCompleted,
     [SockAct.connectAs 3, SockAct.writeBytes message, SockAct.flush])

/-! ## SHA-256 (QCryptographicHash, Sha256)

`generateBlockServerName` digests the identity data with SHA-256 and
encodes the digest in base64.  FIPS 180-4 SHA-256 over 32-bit words,
embedded with natural numbers reduced modulo 2^32. -/

def wordMod : Nat := 4294967296

def rotr32 (x n : Nat) : Nat :=
  ((x >>> n) ||| (x <<< (32 - n))) % wordMod

def shaCh (x y z : Nat) : Nat := (x &&& y) ^^^ ((x ^^^ 0xffffffff) &&& z)

def shaMaj (x y z : Nat) : Nat := (x &&& y) ^^^ (x &&& z) ^^^ (y &&& z)

def bigSigma0 (x : Nat) : Nat := rotr32 x 2 ^^^ rotr32 x 13 ^^^ rotr32 x 22

def bigSigma1 (x : Nat) : Nat := rotr32 x 6 ^^^ rotr32 x 11 ^^^ rotr32 x 25

def smallSigma0 (x : Nat) : Nat := rotr32 x 7 ^^^ rotr32 x 18 ^^^ (x >>> 3)

def smallSigma1 (x : Nat) : Nat := rotr32 x 17 ^^^ rotr32 x 19 ^^^ (x >>> 10)

/-- The 64 round constants of SHA-256, in decimal. -/
def shaK : List Nat :=
  [1116352408, 1899447441, 3049323471, 3921009573,
   961987163, 1508970993, 2453635748, 2870763221,
   3624381080, 310598401, 607225278, 1426881987,
   1925078388, 2162078206, 2614888103, 3248222580,
   3835390401, 4022224774, 264347078, 604807628,
   770255983, 1249150122, 1555081692, 1996064986,
   2554220882, 2821834349, 2952996808, 3210313671,
   3336571891, 3584528711, 113926993, 338241895,
   666307205, 773529912, 1294757372, 1396182291,
   1695183700, 1986661051, 2177026350, 2456956037,
   2730485921, 2820302411, 3259730800, 3345764771,
   3516065817, 3600352804, 4094571909, 275423344,
   430227734, 506948616, 659060556, 883997877,
   958139571, 1322822218, 1537002063, 1747873779,
   1955562222, 2024104815, 2227730452, 2361852424,
   2428436474, 2756734187, 3204031479, 3329325298]

/-- The initial hash value of SHA-256, in decimal. -/
def shaH0 : List Nat :=
  [1779033703, 3144134277, 1013904242, 2773480762,
   1359893119, 2600822924, 528734635, 1541459225]

/-- FIPS padding: append 0x80, zero bytes up to 56 mod 64, then the bit
length as a big-endian 8-byte integer. -/
def shaPad (msg : List Nat) : List Nat :=
  let l := msg.length
  let zeros := (55 + 64 - l % 64) % 64
  msg ++ [0x80] ++ List.replicate zeros 0 ++ beBytes 8 (8 * l)

/-- Big-endian 32-bit words of a byte list. -/
def toWords : List Nat → List Nat
  | b0 :: b1 :: b2 :: b3 :: rest => beDecode [b0, b1, b2, b3] :: toWords rest
  | _ => []

/-- The 64-entry message schedule, given the 16 block words (kept in
reverse as an accumulator while extending). -/
def extendSchedule (acc : List Nat) : Nat → List Nat
  | 0 => acc.reverse
  | n + 1 =>
      let w2 := acc.getD 1 0
      let w7 := acc.getD 6 0
      let w15 := acc.getD 14 0
      let w16 := acc.getD 15 0
      let w := (smallSigma1 w2 + w7 + smallSigma0 w15 + w16) % wordMod
      extendSchedule (w :: acc) n

/-- One round of the SHA-256 compression function on the state
[a, b, c, d, e, f, g, h]. -/
def shaRound (st : List Nat) (k w : Nat) : List Nat :=
  match st with
  | [a, b, c, d, e, f, g, h] =>
      let t1 := (h + bigSigma1 e + shaCh e f g + k + w) % wordMod
      let t2 := (bigSigma0 a + shaMaj a b c) % wordMod
      [(t1 + t2) % wordMod, a, b, c, (d + t1) % wordMod, e, f, g]
  | other => other

/-- Compress one 64-byte block into the running hash value. -/
def shaCompress (h : List Nat) (blockWords : List Nat) : List Nat :=
  let schedule := extendSchedule blockWords.reverse 48
  let st := (List.zip shaK schedule).foldl
    (fun s p => shaRound s p.1 p.2) h
  (List.zip h st).map (fun p => (p.1 + p.2) % wordMod)

/-- Split a byte list into 64-byte blocks; the fuel argument (any bound
on the number of blocks) keeps the recursion structural. -/
def toBlocksAux (fuel : Nat) (bs : List Nat) : List (List Nat) :=
  match fuel with
  | 0 => [bs]
  | f + 1 =>
      if bs.length ≤ 64 then [bs]
      else bs.take 64 :: toBlocksAux f (bs.drop 64)

/-- Split a byte list into 64-byte blocks. -/
def toBlocks (bs : List Nat) : List (List Nat) :=
  toBlocksAux bs.length bs

/-- The SHA-256 digest of a byte list, as 32 bytes. -/
def sha256 (msg : List Nat) : List Nat :=
  let final := ((toBlocks (shaPad msg)).map toWords).foldl shaCompress shaH0
  (final.map (beBytes 4)).flatten

/-- The RFC 2045 base64 alphabet, as byte values. -/
def base64Alphabet : List Nat :=
  [65, 66, 67, 68, 69, 70, 71, 72, 73, 74, 75, 76, 77, 78, 79, 80,
   81, 82, 83, 84, 85, 86, 87, 88, 89, 90,
   97, 98, 99, 100, 101, 102, 103, 104, 105, 106, 107, 108, 109, 110,
   111, 112, 113, 114, 115, 116, 117, 118, 119, 120, 121, 122,
   48, 49, 50, 51, 52, 53, 54, 55, 56, 57, 43, 47]

def b64At (i : Nat) : Nat := base64Alphabet.getD i 0

/-- QByteArray::toBase64: RFC 2045 encoding with padding (61 is the
code of the padding character). -/
def base64 : List Nat → List Nat
  | b0 :: b1 :: b2 :: rest =>
      b64At (b0 / 4) :: b64At ((b0 % 4) * 16 + b1 / 16) ::
      b64At ((b1 % 16) * 4 + b2 / 64) :: b64At (b2 % 64) :: base64 rest
  | [b0, b1] =>
      [b64At (b0 / 4), b64At ((b0 % 4) * 16 + b1 / 16),
       b64At ((b1 % 16) * 4), 61]
  | [b0] =>
      [b64At (b0 / 4), b64At ((b0 % 4) * 16), 61, 61]
  | [] => []

/-! ## generateBlockServerName

The identity data fed to the hash, in order: the fixed 17-byte library
tag "SingleApplication", the application name, the organization name,
the organization domain, then - unless excluded by the options - the
application version and the application file path, and the username when
the User option scopes the lock per user.  The identifier is the
base64 digest with the slash replaced to satisfy server naming. -/

/-- The 17 bytes `appData.addData("SingleApplication", 17)` feeds. -/
def libraryTag : List Nat :=
  [83, 105, 110, 103, 108, 101, 65, 112, 112, 108, 105, 99, 97, 116,
   105, 111, 110]

/-- The byte sequence accumulated into the QCryptographicHash. -/
def hashedData (o : Opts) (appName orgName orgDomain version path
    username : List Nat) : List Nat :=
  libraryTag ++ appName ++ orgName ++ orgDomain ++
  (if o.excludeAppVersion = false then version else []) ++
  (if o.excludeAppPath = false then path else []) ++
  (if o.userScope = true then username else [])

/-- `generateBlockServerName()`: base64 of the SHA-256 digest, with
every slash (47) replaced by an underscore (95). -/
def generateBlockServerName (o : Opts) (appName orgName orgDomain version
    path username : List Nat) : List Nat :=
  (base64 (sha256 (hashedData o appName orgName orgDomain version path
    username))).map (fun c => if c = 47 then 95 else c)

/-! ## Concrete states used by the instance-level theorems -/

/-- A consistency predicate: the stored checksum of the block equals the
checksum recomputed over the bytes preceding the checksum field. -/
def consistent (b : Block) : Prop := b.checksum = blockChecksum b

/-- The state of a freshly created, zero-filled shared memory segment. -/
def zeroBlock : Block :=
  { primary := false, secondary := 0, primaryPid := 0, checksum := 0,
    primaryUser := List.replicate 128 0 }

/-- The block right after the segment creator ran
`initializeMemoryBlock`. -/
def freshBlock : Block := initializeMemoryBlock zeroBlock

/-- A block whose stored checksum disagrees with the recomputed one, as
left behind by a writer that died mid-update. -/
def staleBlock : Block :=
  { freshBlock with checksum := (freshBlock.checksum + 1) % 65536 }

/-- `freshBlock` with only the primary_user bytes changed (first byte
set to 65) and the stored checksum left untouched. -/
def userTouchedBlock : Block :=
  { freshBlock with primaryUser := (List.replicate 128 0).set 0 65 }

/-! ## Concrete connection inputs used by the instance-level theorems -/

/-- The identifier a demonstration listener expects. -/
def demoName : List Nat := [65]

/-- A handshake frame whose 12-byte body carries a corrupted checksum
field (zeroed), followed by one extra byte (99) beyond the announced
body length. -/
def demoBadStream : List Nat :=
  beBytes 8 12 ++ ((serializeInitBody demoName 1 5).take 10 ++ [0, 0]) ++
  [99]

/-- Phase of a connection that is still collecting the 8-byte header of
the handshake frame. -/
def phaseHeader (t : List Nat) (c : Conn) : Prop :=
  t.length < 8 ∧
  c = { stage := Stage.header, messageLength := 0, instanceId := 0,
        buffer := t, closed := false }

/-- Phase of a connection that has decoded the body length announced by
the stream and is still collecting the body. -/
def phaseBody (s t : List Nat) (c : Conn) : Prop :=
  8 ≤ t.length ∧ t.length < 8 + headerOf s ∧
  c = { stage := Stage.body, messageLength := headerOf s, instanceId := 0,
        buffer := t.drop 8, closed := false }

/-- Event lists that hold nothing but disconnect flushes of a
never-handshaken connection: every entry is a messageReceived tagged
with the default instance id 0. -/
def flushOnly (evs : List Event) : Prop :=
  ∀ e ∈ evs, ∃ payload, e = Event.messageReceived 0 payload

/-! # Theorems -/

/-! ## Facts about the block checksum -/

/-- The recomputed block checksum reads only the 16 bytes before the
checksum field: the primary flag, the padding, the counter and the pid. -/
theorem blockChecksum_eq (b : Block) :
    blockChecksum b =
    qChecksum ([if b.primary then 1 else 0, 0, 0, 0] ++
      leBytes 4 b.secondary ++
      leBytes 8 (b.primaryPid % (2 ^ 64 : Int)).toNat) := rfl

/-- Changing only the primary_user buffer leaves the recomputed block
checksum unchanged. -/
theorem blockChecksum_set_user (b : Block) (u : List Nat) :
    blockChecksum { b with primaryUser := u } = blockChecksum b := rfl

/-- Changing only the stored checksum leaves the recomputed block
checksum unchanged. -/
theorem blockChecksum_set_checksum (b : Block) (c : Nat) :
    blockChecksum { b with checksum := c } = blockChecksum b := rfl

theorem consistent_initializeMemoryBlock (b : Block) :
    consistent (initializeMemoryBlock b) := by
  unfold consistent initializeMemoryBlock
  exact (blockChecksum_set_checksum _ _).symm

theorem consistent_startPrimaryBlock (b : Block) (pid : Int)
    (u : List Nat) : consistent (startPrimaryBlock b pid u) := by
  unfold consistent startPrimaryBlock
  exact (blockChecksum_set_checksum _ _).symm

theorem consistent_destructorBlock (b : Block) :
    consistent (destructorBlock b) := by
  unfold consistent destructorBlock
  exact (blockChecksum_set_checksum _ _).symm

theorem consistent_admitBlock (b : Block) :
    consistent (admitBlock b) := by
  unfold consistent admitBlock
  exact (blockChecksum_set_checksum _ _).symm

/-! ## C2 -/

/-- Claim C2, as stated, is false on the code: in the struct the
checksum field sits at offset 16, before the 128-byte primary_user
buffer, and `blockChecksum()` hashes only the bytes preceding the
checksum field.  Concretely: changing the primary_user bytes of a
consistent block while leaving the stored checksum untouched leaves the
stored checksum equal to the recomputed one, where the claim predicts
they must differ. -/
theorem checksum_skips_user_cex :
    userTouchedBlock.primaryUser ≠ freshBlock.primaryUser ∧
    userTouchedBlock.checksum = freshBlock.checksum ∧
    blockChecksum userTouchedBlock = userTouchedBlock.checksum := by
  refine ⟨by decide, rfl, ?_⟩
  have h := consistent_initializeMemoryBlock zeroBlock
  unfold consistent at h
  exact (blockChecksum_set_user freshBlock _).trans h.symm

/-- Claim C2 (corrected): the checksum field is stored at offset 16 of
the Coordination Block, before the primary_user buffer at offset 18, and
is computed over the 16 bytes preceding it (is_primary, padding,
secondary_count, primary_pid) - not over primary_user.  Whenever no
process holds the lock (that is, after each of the four in-source writes
performed under the lock) the stored checksum equals the checksum
recomputed over those preceding bytes, and a change to primary_user
alone leaves the recomputed checksum unchanged, so the stored checksum
still matches it. -/
theorem checksum_covers_prefix_only (b : Block) (pid : Int)
    (u : List Nat) :
    blockBytes b =
      (blockBytes b).take 16 ++ leBytes 2 b.checksum ++ b.primaryUser ∧
    blockChecksum b = qChecksum ((blockBytes b).take 16) ∧
    blockChecksum { b with primaryUser := u } = blockChecksum b ∧
    consistent (initializeMemoryBlock b) ∧
    consistent (startPrimaryBlock b pid u) ∧
    consistent (destructorBlock b) ∧
    consistent (admitBlock b) := by
  refine ⟨rfl, rfl, rfl, consistent_initializeMemoryBlock b,
    consistent_startPrimaryBlock b pid u, consistent_destructorBlock b,
    consistent_admitBlock b⟩

/-! ## C9 -/

/-- Claim C9: `sendMessage` called while the process holds the primary
role returns false immediately, with no connection attempt and no bytes
written, for every payload and every outcome the transport would have
produced. -/
theorem sendMessage_primary_refuses (writeCompleted : Bool)
    (message : List Nat) :
    sendMessageModel true writeCompleted message = (false, []) := rfl

/-! ## C10 -/

/-- Claim C10: becoming primary and the clean shutdown of a primary
touch only the primary flag, the pid, the user buffer and the checksum:
both leave the secondary counter unchanged, so the instance-number
counter carries over across a primary succession. -/
theorem startPrimary_frame (b : Block) (pid : Int) (u : List Nat) :
    (startPrimaryBlock b pid u).secondary = b.secondary ∧
    (destructorBlock b).secondary = b.secondary ∧
    (destructorBlock (startPrimaryBlock b pid u)).secondary =
      b.secondary := ⟨rfl, rfl, rfl⟩

/-! ## C4 -/

/-- Claim C4 names a code bug: on a checksum mismatch with elapsed wait
below 5000 ms the loop retries after `QThread::sleep(r)` with r drawn
from [8, 18) - but `QThread::sleep` counts seconds, so the process
suspends for 1000 * r milliseconds, between 8000 and 17000 ms, never the
8 to 18 ms the spec (and the upstream `QThread::msleep` call this code
descends from) requires.  The very first retry therefore already
overshoots the whole 5000 ms consistency budget. -/
theorem loop_sleeps_seconds (elapsedMs r : Nat) (b : Block)
    (hmis : blockChecksum b ≠ b.checksum) (he : elapsedMs < 5000)
    (hlo : 8 ≤ r) (hhi : r < 18) :
    loopIteration elapsedMs r b = (b, LoopAction.retryAfterSleep (1000 * r)) ∧
    8000 ≤ 1000 * r ∧ 1000 * r ≤ 17000 ∧ ¬ 1000 * r ≤ 18 := by
  refine ⟨?_, by omega, by omega, by omega⟩
  unfold loopIteration
  rw [if_neg hmis, if_neg (by omega)]

theorem loop_sleeps_seconds_witness :
    loopIteration 0 8 staleBlock =
      (staleBlock, LoopAction.retryAfterSleep 8000) ∧
    ¬ 1000 * 8 ≤ 18 := by
  have h := loop_sleeps_seconds 0 8 staleBlock (by decide) (by decide)
    (by decide) (by decide)
  exact ⟨h.1, h.2.2.2⟩

/-! ## C5 -/

/-- Claim C5, as stated, is false on the code at the boundary: the
reinitialization branch tests `timer.elapsed() > 5000`, so on an
iteration where the mismatch persists and the elapsed wait equals
exactly 5000 ms the block is not reinitialized - the loop just sleeps
and retries with the block unchanged. -/
theorem stale_timeout_boundary_cex :
    blockChecksum staleBlock ≠ staleBlock.checksum ∧
    loopIteration 5000 8 staleBlock =
      (staleBlock, LoopAction.retryAfterSleep 8000) ∧
    staleBlock ≠ initializeMemoryBlock staleBlock := by
  refine ⟨by decide, ?_, by decide⟩
  unfold loopIteration
  rw [if_neg (by decide), if_neg (by decide)]

/-- Claim C5 (corrected): on every iteration where the checksum mismatch
persists and the elapsed wait strictly exceeds 5000 ms, the process
reinitializes the block to the zero state (primary flag cleared, counter
0, pid -1, user buffer terminated to the empty string, checksum
recomputed) and then proceeds: the following iteration finds the block
consistent with is_primary false, and the arbitration makes this process
the new primary. -/
theorem stale_timeout_reinitializes (elapsedMs r elapsedMs2 r2 : Nat)
    (b : Block) (allowSecondary : Bool) (o : Opts) (pid : Int)
    (u : List Nat)
    (hmis : blockChecksum b ≠ b.checksum) (he : 5000 < elapsedMs)
    (hu : b.primaryUser.length = 128) :
    loopIteration elapsedMs r b =
      (initializeMemoryBlock b, LoopAction.retryAfterSleep (1000 * r)) ∧
    (initializeMemoryBlock b).primary = false ∧
    (initializeMemoryBlock b).secondary = 0 ∧
    (initializeMemoryBlock b).primaryPid = -1 ∧
    (initializeMemoryBlock b).primaryUser.getD 0 99 = 0 ∧
    consistent (initializeMemoryBlock b) ∧
    loopIteration elapsedMs2 r2 (initializeMemoryBlock b) =
      (initializeMemoryBlock b, LoopAction.proceed) ∧
    (arbitrate allowSecondary o pid u (initializeMemoryBlock b)).outcome =
      Outcome.primaryRole ∧
    (arbitrate allowSecondary o pid u
      (initializeMemoryBlock b)).listenerStarted = true := by
  have hcons := consistent_initializeMemoryBlock b
  refine ⟨?_, rfl, rfl, rfl, ?_, hcons, ?_, rfl, rfl⟩
  · unfold loopIteration
    rw [if_neg hmis, if_pos (by omega)]
  · unfold initializeMemoryBlock
    have : (0 : Nat) < b.primaryUser.length := by omega
    simp [List.getD_eq_getElem?_getD, List.getElem?_set_self,
      this]
  · unfold loopIteration
    rw [if_pos hcons.symm]

theorem stale_timeout_reinitializes_witness :
    loopIteration 5001 8 staleBlock =
      (initializeMemoryBlock staleBlock,
        LoopAction.retryAfterSleep 8000) ∧
    (arbitrate true ⟨false, false, false, false⟩ 41 []
      (initializeMemoryBlock staleBlock)).outcome =
      Outcome.primaryRole := by
  have h := stale_timeout_reinitializes 5001 8 0 8 staleBlock true
    ⟨false, false, false, false⟩ 41 [] (by decide) (by decide) (by decide)
  exact ⟨h.1, h.2.2.2.2.2.2.2.1⟩

/-! ## C3 -/

theorem admitBlock_secondary (b : Block) :
    (admitBlock b).secondary = (b.secondary + 1) % 4294967296 := rfl

/-- The counter after n admissions, in quint32 arithmetic. -/
theorem iterate_admit_secondary (n : Nat) (b : Block)
    (h : b.secondary < 4294967296) :
    (admitBlock^[n] b).secondary = (b.secondary + n) % 4294967296 := by
  induction n generalizing b with
  | zero => simpa using (Nat.mod_eq_of_lt h).symm
  | succ n ih =>
      rw [Function.iterate_succ_apply]
      rw [ih (admitBlock b) (by rw [admitBlock_secondary]; omega)]
      rw [admitBlock_secondary, Nat.mod_add_mod]
      omega

/-- Without counter wraparound the ids of successive admissions count up
from just above the starting counter value. -/
theorem admitIds_eq_range (n : Nat) (b : Block)
    (h : b.secondary + n < 4294967296) :
    admitIds b n = List.range' (b.secondary + 1) n := by
  induction n generalizing b with
  | zero => rfl
  | succ n ih =>
      have hid : admitId b = b.secondary + 1 :=
        Nat.mod_eq_of_lt (by omega)
      have hsec : (admitBlock b).secondary = b.secondary + 1 := by
        rw [admitBlock_secondary]; exact Nat.mod_eq_of_lt (by omega)
      have hrec : admitIds (admitBlock b) n =
          List.range' (b.secondary + 2) n := by
        rw [ih (admitBlock b) (by rw [hsec]; omega), hsec]
      show admitId b :: admitIds (admitBlock b) n = _
      rw [hid, hrec, List.range'_succ]

/-- Claim C3, as stated, is false on the code for unboundedly long
admission sequences: the counter is a quint32, so the 4294967295th
admission is assigned id 4294967295 and the admission right after it is
assigned id 0 - the sequence stops increasing (and 0 collides with the
id reserved for the primary). -/
theorem admitted_ids_wrap_cex :
    admitId (admitBlock^[4294967294] freshBlock) = 4294967295 ∧
    admitId (admitBlock^[4294967295] freshBlock) = 0 := by
  have h0 : freshBlock.secondary = 0 := rfl
  have h1 := iterate_admit_secondary 4294967294 freshBlock
    (by rw [h0]; omega)
  have h2 := iterate_admit_secondary 4294967295 freshBlock
    (by rw [h0]; omega)
  rw [h0] at h1 h2
  have hd : ∀ b : Block, admitId b = (b.secondary + 1) % 4294967296 :=
    fun _ => rfl
  constructor
  · rw [hd, h1]
  · rw [hd, h2]

/-- Claim C3 (corrected): for every sequence of fewer than 2^32
secondary admissions under a single primary (the counter is a quint32
and wraps after 2^32 admissions), the assigned ids are exactly the
strictly increasing integers 1, 2, ..., n with no duplicates, the first
secondary receiving id 1. -/
theorem admitted_ids_increasing (n : Nat) (b : Block)
    (h0 : b.secondary = 0) (hn : n < 4294967296) :
    admitIds b n = List.range' 1 n ∧
    List.Pairwise (· < ·) (admitIds b n) ∧
    (admitIds b n).Nodup ∧
    (0 < n → (admitIds b n).getD 0 0 = 1) := by
  have hr : admitIds b n = List.range' 1 n := by
    have := admitIds_eq_range n b (by omega)
    rwa [h0] at this
  have hp : List.Pairwise (· < ·) (List.range' 1 n) :=
    List.pairwise_lt_range' 1 n
  refine ⟨hr, by rw [hr]; exact hp, by rw [hr]; exact hp.nodup, ?_⟩
  intro hpos
  rw [hr]
  cases n with
  | zero => omega
  | succ m => rw [List.range'_succ]; rfl

theorem admitted_ids_increasing_witness :
    admitIds freshBlock 3 = [1, 2, 3] ∧
    (admitIds freshBlock 3).getD 0 0 = 1 := by
  have h := admitted_ids_increasing 3 freshBlock rfl (by omega)
  exact ⟨h.1.trans rfl, h.2.2.2 (by omega)⟩

/-! ## Byte encoding lemmas -/

theorem beBytes_length (w v : Nat) : (beBytes w v).length = w := by
  induction w generalizing v with
  | zero => rfl
  | succ w ih => simp [beBytes, ih]

theorem beDecode_aux (w : Nat) : ∀ v acc : Nat,
    (beBytes w v).foldl (fun a b => a * 256 + b % 256) acc =
      acc * 2 ^ (8 * w) + v % 2 ^ (8 * w) := by
  induction w with
  | zero => intro v acc; simp [beBytes, Nat.mod_one]
  | succ w ih =>
      intro v acc
      have hstep : beBytes (w + 1) v = (v >>> (8 * w)) % 256 :: beBytes w v :=
        rfl
      rw [hstep, List.foldl_cons, ih]
      have h1 : (v >>> (8 * w)) % 256 % 256 = v / 2 ^ (8 * w) % 256 := by
        rw [Nat.shiftRight_eq_div_pow]; omega
      have h2 : 2 ^ (8 * (w + 1)) = 2 ^ (8 * w) * 256 := by
        rw [show 8 * (w + 1) = 8 * w + 8 by ring, pow_add]; norm_num
      rw [h1, h2, Nat.mod_mul]
      ring

theorem beDecode_beBytes (w v : Nat) :
    beDecode (beBytes w v) = v % 2 ^ (8 * w) := by
  have h := beDecode_aux w v 0
  simpa [beDecode] using h

theorem readBytes_exact (xs rest : List Nat) (n : Nat)
    (h : xs.length = n) : readBytes n (xs ++ rest) = some (xs, rest) := by
  unfold readBytes
  rw [if_pos (by simp [List.length_append]; omega), List.take_left' h,
    List.drop_left' h]

theorem readBE_exact (w v : Nat) (rest : List Nat) :
    readBE w (beBytes w v ++ rest) = some (v % 2 ^ (8 * w), rest) := by
  unfold readBE
  rw [readBytes_exact _ _ _ (beBytes_length w v)]
  simp [beDecode_beBytes]

theorem readByte_exact (x : Nat) (rest : List Nat) :
    readBE 1 (x :: rest) = some (x % 256, rest) := by
  unfold readBE readBytes
  simp [beDecode]

/-! ## qChecksum stays within 16 bits -/

theorem crcTblAt_lt (j : Nat) : crcTblAt j < 65536 := by
  have h16 : ∀ i < 16, crcTblAt i < 65536 := by decide
  by_cases h : j < 16
  · exact h16 j h
  · unfold crcTblAt
    rw [List.getD_eq_getElem?_getD, List.getElem?_eq_none (by
      simp [crcTbl]; omega)]
    simp

theorem nibbleStep_lt (a c : Nat) : nibbleStep a c < 65536 := by
  unfold nibbleStep
  exact Nat.xor_lt_two_pow (n := 16)
    (lt_of_le_of_lt Nat.and_le_right (by omega)) (crcTblAt_lt _)

theorem byteStep_lt (a c : Nat) : byteStep a c < 65536 :=
  nibbleStep_lt _ _

theorem crcAcc_lt (data : List Nat) : ∀ a : Nat, a < 65536 →
    crcAcc a data < 65536 := by
  induction data with
  | nil => intro a h; exact h
  | cons x xs ih =>
      intro a _
      exact ih (byteStep a x) (byteStep_lt a x)

theorem qChecksum_lt (data : List Nat) : qChecksum data < 65536 := by
  unfold qChecksum
  exact Nat.xor_lt_two_pow (n := 16)
    (crcAcc_lt data 0xffff (by omega)) (by omega)

/-! ## Round trip of the handshake frame -/

theorem serializeInitBody_length (name : List Nat) (ct inst : Nat) :
    (serializeInitBody name ct inst).length = 11 + name.length := by
  unfold serializeInitBody
  simp [beBytes_length, List.length_append]
  omega

/-- Parsing the body built by the Connector recovers the identifier, the
connection type, the instance id and the checksum the Connector wrote. -/
theorem parse_serialize (name : List Nat) (ct inst : Nat)
    (hlen : name.length < 4294967295) :
    parseInitBody (serializeInitBody name ct inst) =
      some (name, ct % 256, inst % 4294967296,
        qChecksum (beBytes 4 name.length ++ name ++ [ct % 256] ++
          beBytes 4 inst)) := by
  unfold parseInitBody readQByteArray
  generalize hK : qChecksum (beBytes 4 name.length ++ name ++ [ct % 256] ++
    beBytes 4 inst) = K
  have hchk : K < 65536 := hK ▸ qChecksum_lt _
  have hbody : serializeInitBody name ct inst =
      beBytes 4 name.length ++ (name ++ ([ct % 256] ++ (beBytes 4 inst ++
      beBytes 2 K))) := by
    rw [← hK]; simp [serializeInitBody, List.append_assoc]
  rw [hbody]
  rw [readBE_exact]
  have hnl : name.length % 2 ^ (8 * 4) = name.length :=
    Nat.mod_eq_of_lt (by omega)
  simp only [Option.some_bind, hnl]
  rw [if_neg (by omega)]
  rw [readBytes_exact _ _ _ rfl]
  simp only [Option.some_bind, List.singleton_append]
  rw [readByte_exact]
  have hct2 : ct % 256 % 256 = ct % 256 := Nat.mod_mod_of_dvd ct dvd_rfl
  simp only [Option.some_bind, hct2]
  rw [readBE_exact]
  simp only [Option.some_bind]
  have hall : readBE 2 (beBytes 2 K) = some (K % 2 ^ (8 * 2), []) := by
    have h := readBE_exact 2 K []
    rwa [List.append_nil] at h
  rw [hall]
  have hKm : K % 2 ^ (8 * 2) = K := Nat.mod_eq_of_lt (by norm_num; omega)
  rw [hKm]
  rfl

/-- The body bytes preceding the checksum field of a serialized
handshake body are exactly the core the Connector checksummed. -/
theorem serializeInitBody_core_take (name : List Nat) (ct inst : Nat) :
    (serializeInitBody name ct inst).take
      ((serializeInitBody name ct inst).length - 2) =
    beBytes 4 name.length ++ name ++ [ct % 256] ++ beBytes 4 inst := by
  have hcore : (beBytes 4 name.length ++ name ++ [ct % 256] ++
      beBytes 4 inst).length = 9 + name.length := by
    simp [beBytes_length, List.length_append]
    omega
  have hsplit : serializeInitBody name ct inst =
      (beBytes 4 name.length ++ name ++ [ct % 256] ++ beBytes 4 inst) ++
      beBytes 2 (qChecksum (beBytes 4 name.length ++ name ++ [ct % 256] ++
        beBytes 4 inst)) := rfl
  rw [serializeInitBody_length]
  rw [show 11 + name.length - 2 = 9 + name.length by omega]
  rw [hsplit, List.take_left' hcore]

/-- A serialized handshake body passes the validity test of
`readInitMessageBody` against the identifier it carries. -/
theorem serializeInitBody_valid (name : List Nat) (ct inst : Nat)
    (hlen : name.length < 4294967295) :
    bodyValid name (serializeInitBody name ct inst) = true := by
  unfold bodyValid
  rw [parse_serialize name ct inst hlen]
  simp [serializeInitBody_core_take name ct inst]

/-- Processing a complete, well-formed handshake body moves the
connection to Connected, records the instance id, and raises
instanceStarted exactly for NewInstance, or SecondaryInstance under the
secondary-notification option. -/
theorem readBodyStep_serialized (o : Opts) (name : List Nat)
    (ct inst : Nat) (hlen : name.length < 4294967295) (hct : ct < 256)
    (hinst : inst < 4294967296) (c : Conn)
    (hbuf : c.buffer = serializeInitBody name ct inst)
    (hml : c.messageLength = 11 + name.length) :
    readBodyStep o name c =
      ({ c with buffer := [], instanceId := inst, stage := Stage.connected },
       if ct = 1 ∨ (ct = 2 ∧ o.secondaryNotification = true)
         then [Event.instanceStarted] else []) := by
  unfold readBodyStep
  rw [hbuf, hml, serializeInitBody_length]
  rw [if_neg (by omega)]
  rw [show (serializeInitBody name ct inst).take (11 + name.length) =
      serializeInitBody name ct inst by
    rw [← serializeInitBody_length name ct inst, List.take_length]]
  rw [show (serializeInitBody name ct inst).drop (11 + name.length) =
      ([] : List Nat) by
    rw [← serializeInitBody_length name ct inst, List.drop_length]]
  simp only [parse_serialize name ct inst hlen]
  rw [serializeInitBody_core_take name ct inst]
  simp only [Nat.mod_eq_of_lt hct, Nat.mod_eq_of_lt hinst]
  simp

/-- Delivering the full serialized handshake frame to a freshly accepted
connection lands it in Connected with the sent instance id, raising
instanceStarted exactly when the connection type warrants it. -/
theorem deliver_serialized (o : Opts) (name : List Nat) (ct inst : Nat)
    (hlen : name.length < 4294967295) (hct : ct < 256)
    (hinst : inst < 4294967296) :
    deliver o name initialConn (serializeInitMessage name ct inst) =
      ({ stage := Stage.connected, messageLength := 11 + name.length,
         instanceId := inst, buffer := [], closed := false },
       if ct = 1 ∨ (ct = 2 ∧ o.secondaryNotification = true)
         then [Event.instanceStarted] else []) := by
  unfold deliver
  rw [if_neg (by decide)]
  show readHeaderStep o name
    { stage := Stage.header, messageLength := 0, instanceId := 0,
      buffer := [] ++ serializeInitMessage name ct inst,
      closed := false } = _
  rw [List.nil_append]
  unfold readHeaderStep
  unfold serializeInitMessage
  rw [serializeInitBody_length]
  have h8 : (beBytes 8 (11 + name.length)).length = 8 := beBytes_length 8 _
  rw [show (beBytes 8 (11 + name.length) ++
      serializeInitBody name ct inst).length =
      8 + (serializeInitBody name ct inst).length by
    simp [List.length_append, h8]]
  rw [if_neg (by omega)]
  rw [List.take_left' h8, List.drop_left' h8]
  rw [beDecode_beBytes]
  have hL : (11 + name.length) % 2 ^ (8 * 8) = 11 + name.length :=
    Nat.mod_eq_of_lt (by norm_num; omega)
  rw [hL]
  rw [if_pos (by rw [serializeInitBody_length])]
  rw [readBodyStep_serialized o name ct inst hlen hct hinst _ rfl rfl]

/-- Feeding the serialized handshake as one chunk: the stream-level
round trip of the Connector against the Listener. -/
theorem feed_serialized (o : Opts) (name : List Nat) (ct inst : Nat)
    (hlen : name.length < 4294967295) (hct : ct < 256)
    (hinst : inst < 4294967296) :
    feedChunks o name initialConn [serializeInitMessage name ct inst] =
      ({ stage := Stage.connected, messageLength := 11 + name.length,
         instanceId := inst, buffer := [], closed := false },
       if ct = 1 ∨ (ct = 2 ∧ o.secondaryNotification = true)
         then [Event.instanceStarted] else []) := by
  unfold feedChunks
  rw [deliver_serialized o name ct inst hlen hct hinst]
  unfold feedChunks
  simp

/-! ## C8 -/

/-- Claim C8: a process started with allowSecondary false while a
consistent primary is registered releases the lock, connects to the
primary with a NewInstance handshake - which, delivered to the
listening primary, raises instance-started - and terminates with exit
status 0 (EXIT_SUCCESS) without ever starting the Listener. -/
theorem disallowed_secondary_terminates (o oPrim : Opts) (pid : Int)
    (u name : List Nat) (b : Block) (hp : b.primary = true)
    (_hc : consistent b) (hlen : name.length < 4294967295) :
    (arbitrate false o pid u b).outcome = Outcome.terminated 0 ∧
    (arbitrate false o pid u b).listenerStarted = false ∧
    (arbitrate false o pid u b).sentHandshakes = [1] ∧
    (arbitrate false o pid u b).block = b ∧
    (feedChunks oPrim name initialConn
      [serializeInitMessage name 1
        (arbitrate false o pid u b).instanceNumber]).2 =
      [Event.instanceStarted] ∧
    (feedChunks oPrim name initialConn
      [serializeInitMessage name 1
        (arbitrate false o pid u b).instanceNumber]).1.stage =
      Stage.connected := by
  have harb : arbitrate false o pid u b =
      { outcome := Outcome.terminated 0, block := b,
        listenerStarted := false, sentHandshakes := [1],
        instanceNumber := 4294967295 } := by
    unfold arbitrate
    rw [hp]
    simp
  rw [harb]
  refine ⟨rfl, rfl, rfl, rfl, ?_, ?_⟩
  · rw [feed_serialized oPrim name 1 4294967295 hlen (by omega) (by omega)]
    simp
  · rw [feed_serialized oPrim name 1 4294967295 hlen (by omega) (by omega)]

theorem disallowed_secondary_terminates_witness :
    (arbitrate false ⟨false, false, false, false⟩ 7 [66]
      (startPrimaryBlock freshBlock 42 [65])).outcome =
      Outcome.terminated 0 ∧
    (feedChunks ⟨false, false, false, false⟩ [65] initialConn
      [serializeInitMessage [65] 1
        (arbitrate false ⟨false, false, false, false⟩ 7 [66]
          (startPrimaryBlock freshBlock 42 [65])).instanceNumber]).2 =
      [Event.instanceStarted] := by
  have h := disallowed_secondary_terminates ⟨false, false, false, false⟩
    ⟨false, false, false, false⟩ 7 [66] [65]
    (startPrimaryBlock freshBlock 42 [65]) rfl
    (consistent_startPrimaryBlock freshBlock 42 [65]) (by decide)
  exact ⟨h.1, h.2.2.2.2.1⟩

/-! ## C7 -/

/-- Claim C7: identifier generation is a pure function of the identity
inputs and the option flags - identical inputs give identical
identifiers; with ExcludeAppVersion set the result does not depend on
the version, with ExcludeAppPath set it does not depend on the path, and
the username influences the result exactly when the User option is set:
without it the result is username-independent, with it two distinct
usernames are exhibited that produce distinct identifiers. -/
theorem blockServerName_pure (o : Opts)
    (an og od v v2 p p2 u u2 : List Nat) :
    generateBlockServerName o an og od v p u =
      generateBlockServerName o an og od v p u ∧
    (o.excludeAppVersion = true →
      generateBlockServerName o an og od v p u =
      generateBlockServerName o an og od v2 p u) ∧
    (o.excludeAppPath = true →
      generateBlockServerName o an og od v p u =
      generateBlockServerName o an og od v p2 u) ∧
    (o.userScope = false →
      generateBlockServerName o an og od v p u =
      generateBlockServerName o an og od v p u2) ∧
    generateBlockServerName ⟨false, false, true, false⟩ [] [] [] [] []
        [97] ≠
      generateBlockServerName ⟨false, false, true, false⟩ [] [] [] [] []
        [98] := by
  refine ⟨rfl, ?_, ?_, ?_, by decide⟩
  · intro h
    unfold generateBlockServerName hashedData
    rw [h]
    simp
  · intro h
    unfold generateBlockServerName hashedData
    rw [h]
    simp
  · intro h
    unfold generateBlockServerName hashedData
    rw [h]
    simp

theorem blockServerName_pure_witness :
    generateBlockServerName ⟨true, true, false, false⟩ [1] [2] [3] [4]
      [5] [6] =
    generateBlockServerName ⟨true, true, false, false⟩ [1] [2] [3] [9]
      [5] [6] :=
  (blockServerName_pure ⟨true, true, false, false⟩ [1] [2] [3] [4] [9]
    [5] [5] [6] [6]).2.1 rfl

/-! ## C1 -/

/-- On a body that fails validation, `readInitMessageBody` closes the
socket with the record unchanged apart from consuming the body bytes. -/
theorem readBodyStep_invalid (o : Opts) (expected : List Nat) (c : Conn)
    (hlen : c.messageLength ≤ c.buffer.length)
    (hval : bodyValid expected (c.buffer.take c.messageLength) = false) :
    readBodyStep o expected c =
      closeSocket { c with buffer := c.buffer.drop c.messageLength } := by
  unfold readBodyStep
  rw [if_neg (by omega)]
  unfold bodyValid at hval
  cases hp : parseInitBody (c.buffer.take c.messageLength) with
  | none => simp [hp]
  | some q =>
      obtain ⟨nm, ct2, inst2, chk2⟩ := q
      rw [hp] at hval
      simp only [Bool.and_eq_false_imp, decide_eq_true_eq,
        decide_eq_false_iff_not] at hval
      simp only [hp]
      rw [if_neg (by
        intro hcontra
        exact hval hcontra.1 hcontra.2)]

/-- A closed socket receives nothing. -/
theorem deliver_closed (o : Opts) (expected : List Nat) (c : Conn)
    (ch : List Nat) (h : c.closed = true) :
    deliver o expected c ch = (c, []) := by
  unfold deliver
  rw [if_pos h]

/-- Delivery to an open socket appends to the buffer and fires
readyRead. -/
theorem deliver_open (o : Opts) (expected : List Nat) (c : Conn)
    (ch : List Nat) (h : c.closed = false) :
    deliver o expected c ch =
      readyRead o expected { c with buffer := c.buffer ++ ch } := by
  unfold deliver
  rw [h]
  simp

theorem readyRead_header (o : Opts) (expected : List Nat) (c : Conn)
    (h : c.stage = Stage.header) :
    readyRead o expected c = readHeaderStep o expected c := by
  unfold readyRead
  rw [h]

theorem readyRead_body (o : Opts) (expected : List Nat) (c : Conn)
    (h : c.stage = Stage.body) :
    readyRead o expected c = readBodyStep o expected c := by
  unfold readyRead
  rw [h]

theorem readHeaderStep_short (o : Opts) (expected : List Nat) (c : Conn)
    (h : c.buffer.length < 8) :
    readHeaderStep o expected c = (c, []) := by
  unfold readHeaderStep
  rw [if_pos h]

theorem readHeaderStep_full (o : Opts) (expected : List Nat) (c : Conn)
    (h : ¬ c.buffer.length < 8)
    (h2 : beDecode (c.buffer.take 8) ≤ (c.buffer.drop 8).length) :
    readHeaderStep o expected c =
      readBodyStep o expected
        { c with buffer := c.buffer.drop 8, stage := Stage.body,
                 messageLength := beDecode (c.buffer.take 8) } := by
  unfold readHeaderStep
  rw [if_neg h, if_pos h2]

theorem readHeaderStep_incomplete (o : Opts) (expected : List Nat)
    (c : Conn) (h : ¬ c.buffer.length < 8)
    (h2 : ¬ beDecode (c.buffer.take 8) ≤ (c.buffer.drop 8).length) :
    readHeaderStep o expected c =
      ({ c with buffer := c.buffer.drop 8, stage := Stage.body,
                messageLength := beDecode (c.buffer.take 8) }, []) := by
  unfold readHeaderStep
  rw [if_neg h, if_neg h2]

theorem readBodyStep_wait (o : Opts) (expected : List Nat) (c : Conn)
    (h : c.buffer.length < c.messageLength) :
    readBodyStep o expected c = (c, []) := by
  unfold readBodyStep
  rw [if_pos h]

/-- The events of a socket close are a flush of whatever the record
currently holds. -/
theorem closeSocket_events (c : Conn) :
    (closeSocket c).1.closed = true ∧
    ((closeSocket c).2 = [] ∨
     (closeSocket c).2 = [Event.messageReceived c.instanceId c.buffer]) := by
  unfold closeSocket
  refine ⟨rfl, ?_⟩
  by_cases h : c.buffer = []
  · rw [if_pos h]
    exact Or.inl rfl
  · rw [if_neg h]
    exact Or.inr rfl

/-- One delivery step preserves the parsing-phase invariant of a
connection whose announced body fails validation, and can only emit
flush events tagged with instance id 0. -/
theorem deliver_invalid_step (o : Opts) (expected s t ch : List Nat)
    (c : Conn) (hpre : ∃ r, s = (t ++ ch) ++ r)
    (hinv : bodyValid expected (bodyOf s) = false)
    (hphase : phaseHeader t c ∨ phaseBody s t c ∨ c.closed = true) :
    (phaseHeader (t ++ ch) (deliver o expected c ch).1 ∨
     phaseBody s (t ++ ch) (deliver o expected c ch).1 ∨
     (deliver o expected c ch).1.closed = true) ∧
    flushOnly (deliver o expected c ch).2 := by
  obtain ⟨r, hs⟩ := hpre
  have htk : ∀ n, n ≤ (t ++ ch).length → s.take n = (t ++ ch).take n := by
    intro n hn
    rw [hs]
    exact List.take_append_of_le_length hn
  have hdrop8 : 8 ≤ (t ++ ch).length → s.drop 8 = (t ++ ch).drop 8 ++ r := by
    intro hn
    rw [hs]
    exact List.drop_append_of_le_length hn
  have hbody8 : 8 ≤ (t ++ ch).length →
      headerOf s ≤ ((t ++ ch).drop 8).length →
      bodyOf s = ((t ++ ch).drop 8).take (headerOf s) := by
    intro hn hb
    unfold bodyOf
    rw [hdrop8 hn]
    exact List.take_append_of_le_length hb
  have hhdr : 8 ≤ (t ++ ch).length →
      beDecode ((t ++ ch).take 8) = headerOf s := by
    intro hn
    unfold headerOf
    rw [htk 8 hn]
  -- the invalid-body close, shared by the two completing branches
  have hclose : ∀ c1 : Conn, c1.buffer = (t ++ ch).drop 8 →
      c1.messageLength = headerOf s → c1.instanceId = 0 →
      headerOf s ≤ ((t ++ ch).drop 8).length → 8 ≤ (t ++ ch).length →
      (readBodyStep o expected c1).1.closed = true ∧
      flushOnly (readBodyStep o expected c1).2 := by
    intro c1 hb hm hid hfit hn
    rw [readBodyStep_invalid o expected c1 (by rw [hb, hm]; exact hfit)
      (by rw [hb, hm, ← hbody8 hn hfit]; exact hinv)]
    obtain ⟨hcl, hev⟩ := closeSocket_events { c1 with
      buffer := c1.buffer.drop c1.messageLength }
    refine ⟨hcl, ?_⟩
    intro e he
    rcases hev with hev | hev
    · rw [hev] at he
      simp at he
    · rw [hev] at he
      simp at he
      rw [he]
      exact ⟨_, by rw [hid]⟩
  rcases hphase with hph | hph | hph
  · obtain ⟨hlt, hc⟩ := hph
    rw [deliver_open o expected c ch (by rw [hc])]
    rw [readyRead_header o expected _ (by rw [hc])]
    have hcbuf : ({ c with buffer := c.buffer ++ ch } : Conn).buffer =
        t ++ ch := by rw [hc]
    by_cases h8 : (t ++ ch).length < 8
    · rw [readHeaderStep_short o expected _ (by rw [hcbuf]; exact h8)]
      refine ⟨Or.inl ⟨h8, ?_⟩, ?_⟩
      · rw [hc]
      · intro e he
        simp at he
    · push_neg at h8
      by_cases hfit : headerOf s ≤ ((t ++ ch).drop 8).length
      · rw [readHeaderStep_full o expected _
          (by rw [hcbuf]; omega)
          (by rw [hcbuf, hhdr h8]; exact hfit)]
        have hres := hclose
          { c with buffer := ((c.buffer ++ ch)).drop 8,
                   stage := Stage.body,
                   messageLength := beDecode ((c.buffer ++ ch).take 8) }
          (by rw [hc]) (by rw [hc]; exact hhdr h8) (by rw [hc]) hfit h8
        exact ⟨Or.inr (Or.inr hres.1), hres.2⟩
      · rw [readHeaderStep_incomplete o expected _
          (by rw [hcbuf]; omega)
          (by rw [hcbuf, hhdr h8]; exact hfit)]
        refine ⟨Or.inr (Or.inl ⟨h8, ?_, ?_⟩), ?_⟩
        · have hlen2 : ((t ++ ch).drop 8).length = (t ++ ch).length - 8 :=
            List.length_drop 8 (t ++ ch)
          push_neg at hfit
          omega
        · rw [hc]
          simp [hhdr h8]
        · intro e he
          simp at he
  · obtain ⟨h8t, hlt, hc⟩ := hph
    rw [deliver_open o expected c ch (by rw [hc])]
    rw [readyRead_body o expected _ (by rw [hc])]
    have h8 : 8 ≤ (t ++ ch).length := by
      simp only [List.length_append]
      omega
    have hcbuf : ({ c with buffer := c.buffer ++ ch } : Conn).buffer =
        (t ++ ch).drop 8 := by
      rw [hc]
      show t.drop 8 ++ ch = (t ++ ch).drop 8
      rw [List.drop_append_of_le_length h8t]
    by_cases hfit : headerOf s ≤ ((t ++ ch).drop 8).length
    · have hres := hclose { c with buffer := c.buffer ++ ch }
        hcbuf (by rw [hc]) (by rw [hc]) hfit h8
      exact ⟨Or.inr (Or.inr hres.1), hres.2⟩
    · rw [readBodyStep_wait o expected _ (by
        rw [hcbuf]
        show ((t ++ ch).drop 8).length <
          ({ c with buffer := c.buffer ++ ch } : Conn).messageLength
        rw [hc]
        show ((t ++ ch).drop 8).length < headerOf s
        omega)]
      refine ⟨Or.inr (Or.inl ⟨h8, ?_, ?_⟩), ?_⟩
      · have hlen2 : ((t ++ ch).drop 8).length = (t ++ ch).length - 8 :=
          List.length_drop 8 (t ++ ch)
        push_neg at hfit
        omega
      · rw [hc]
        simp [List.drop_append_of_le_length h8t]
      · intro e he
        simp at he
  · rw [deliver_closed o expected c ch hph]
    exact ⟨Or.inr (Or.inr hph), by intro e he; simp at he⟩

/-- The parsing-phase invariant holds after any sequence of chunk
deliveries of a stream whose announced body fails validation, and the
events collected along the way are flushes only. -/
theorem feedChunks_invalid_aux (o : Opts) (expected s : List Nat)
    (hinv : bodyValid expected (bodyOf s) = false) :
    ∀ (chunks : List (List Nat)) (t : List Nat) (c : Conn),
      s = t ++ chunks.flatten →
      (phaseHeader t c ∨ phaseBody s t c ∨ c.closed = true) →
      (phaseHeader s (feedChunks o expected c chunks).1 ∨
       phaseBody s s (feedChunks o expected c chunks).1 ∨
       (feedChunks o expected c chunks).1.closed = true) ∧
      flushOnly (feedChunks o expected c chunks).2 := by
  intro chunks
  induction chunks with
  | nil =>
      intro t c hst hph
      have ht : t = s := by
        rw [hst]
        simp
      subst ht
      refine ⟨hph, ?_⟩
      intro e he
      simp [feedChunks] at he
  | cons ch rest ih =>
      intro t c hst hph
      have hst' : s = (t ++ ch) ++ rest.flatten := by
        rw [hst]
        simp [List.append_assoc]
      have hstep := deliver_invalid_step o expected s t ch c
        ⟨rest.flatten, hst'⟩ hinv hph
      have hrec := ih (t ++ ch) (deliver o expected c ch).1 hst' hstep.1
      refine ⟨hrec.1, ?_⟩
      show flushOnly ((deliver o expected c ch).2 ++
        (feedChunks o expected (deliver o expected c ch).1 rest).2)
      intro e he
      rcases List.mem_append.1 he with he | he
      · exact hstep.2 e he
      · exact hrec.2 e he

/-- Claim C1 (corrected): for every accepted connection whose handshake
body fails validation - delivered as any sequence of byte chunks - the
primary closes the connection and no instance-started event is ever
emitted; no message-received event is emitted either, except that bytes
left buffered beyond the failing handshake frame when the close occurs
are flushed as message-received events tagged with the connection
records default instance id 0. -/
theorem invalid_handshake_no_events (o : Opts) (expected : List Nat)
    (chunks : List (List Nat))
    (hcomp : 8 + headerOf chunks.flatten ≤ chunks.flatten.length)
    (hinv : bodyValid expected (bodyOf chunks.flatten) = false) :
    (feedChunks o expected initialConn chunks).1.closed = true ∧
    Event.instanceStarted ∉ (feedChunks o expected initialConn chunks).2 ∧
    flushOnly (feedChunks o expected initialConn chunks).2 := by
  have h := feedChunks_invalid_aux o expected chunks.flatten hinv chunks
    [] initialConn (by simp) (Or.inl ⟨by simp, rfl⟩)
  have hclosed : (feedChunks o expected initialConn chunks).1.closed =
      true := by
    rcases h.1 with hph | hph | hph
    · exact absurd hph.1 (by omega)
    · exact absurd hph.2.1 (by omega)
    · exact hph
  refine ⟨hclosed, ?_, h.2⟩
  intro hmem
  obtain ⟨payload, hpay⟩ := h.2 Event.instanceStarted hmem
  exact Event.noConfusion hpay

theorem invalid_handshake_no_events_witness :
    (feedChunks ⟨false, false, false, false⟩ demoName initialConn
      [demoBadStream]).1.closed = true ∧
    Event.instanceStarted ∉
      (feedChunks ⟨false, false, false, false⟩ demoName initialConn
        [demoBadStream]).2 := by
  have h := invalid_handshake_no_events ⟨false, false, false, false⟩
    demoName [demoBadStream] (by decide) (by decide)
  exact ⟨h.1, h.2.1⟩

/-- Claim C1, as stated, is false on the code: this connection receives
a frame whose body fails checksum validation, followed by one extra
buffered byte; the primary closes the connection, but the
flush-on-disconnect path still emits a message-received event (tagged
with the default instance id 0) carrying the extra byte. -/
theorem invalid_handshake_flush_cex :
    bodyValid demoName (bodyOf demoBadStream) = false ∧
    8 + headerOf demoBadStream ≤ demoBadStream.length ∧
    (feedChunks ⟨false, false, false, false⟩ demoName initialConn
      [demoBadStream]).2 = [Event.messageReceived 0 [99]] ∧
    (feedChunks ⟨false, false, false, false⟩ demoName initialConn
      [demoBadStream]).1.closed = true := by
  decide

/-! ## CRC-16 single-bit error detection

qChecksum is linear over xor; a single flipped bit therefore propagates
to a nonzero register difference that the zero-byte step map never
cancels, so the final checksum differs. -/

theorem bool_xor_mix (a b c d : Bool) :
    xor (xor a b) (xor c d) = xor (xor a c) (xor b d) := by
  cases a <;> cases b <;> cases c <;> cases d <;> rfl

theorem nat_xor_mix (p q r v : Nat) :
    (p ^^^ q) ^^^ (r ^^^ v) = (p ^^^ r) ^^^ (q ^^^ v) := by
  apply Nat.eq_of_testBit_eq
  intro i
  simp only [Nat.testBit_xor]
  exact bool_xor_mix _ _ _ _

theorem xor_shiftRight (a b k : Nat) :
    (a ^^^ b) >>> k = a >>> k ^^^ b >>> k := by
  apply Nat.eq_of_testBit_eq
  intro i
  simp [Nat.testBit_shiftRight, Nat.testBit_xor]

theorem crcTblAt_linear : ∀ u < 16, ∀ v < 16,
    crcTblAt (u ^^^ v) = crcTblAt u ^^^ crcTblAt v := by decide

theorem and_fifteen_lt (x : Nat) : x &&& 15 < 16 :=
  lt_of_le_of_lt Nat.and_le_right (by omega)

theorem nibbleStep_linear (a d x e : Nat) :
    nibbleStep (a ^^^ d) (x ^^^ e) = nibbleStep a x ^^^ nibbleStep d e := by
  unfold nibbleStep
  rw [xor_shiftRight, Nat.and_xor_distrib_right]
  rw [nat_xor_mix a d x e, Nat.and_xor_distrib_right]
  rw [crcTblAt_linear _ (and_fifteen_lt _) _ (and_fifteen_lt _)]
  exact nat_xor_mix _ _ _ _

theorem byteStep_linear (a d c e : Nat) :
    byteStep (a ^^^ d) (c ^^^ e) = byteStep a c ^^^ byteStep d e := by
  unfold byteStep
  rw [nibbleStep_linear, xor_shiftRight, nibbleStep_linear]

theorem crcAcc_linear : ∀ (xs es : List Nat) (a d : Nat),
    es.length = xs.length →
    crcAcc (a ^^^ d) (List.zipWith (fun x e => x ^^^ e) xs es) =
      crcAcc a xs ^^^ crcAcc d es := by
  intro xs
  induction xs with
  | nil =>
      intro es a d h
      rw [List.length_nil, List.length_eq_zero] at h
      rw [h]
      rfl
  | cons x xs ih =>
      intro es a d h
      cases es with
      | nil => simp at h
      | cons e es =>
          show crcAcc (byteStep (a ^^^ d) (x ^^^ e))
            (List.zipWith (fun x e => x ^^^ e) xs es) = _
          rw [byteStep_linear]
          rw [ih es (byteStep a x) (byteStep d e) (by simpa using h)]
          rfl

theorem crcTblAt_gt (i : Nat) (h : i < 16) (h0 : i ≠ 0) :
    4095 < crcTblAt i := by
  have : ∀ j < 16, j ≠ 0 → 4095 < crcTblAt j := by decide
  exact this i h h0

/-- The zero-nibble step map has a trivial kernel on 16-bit registers. -/
theorem nibbleStep_zero_kernel (d : Nat) (hd : d < 65536)
    (h : nibbleStep d 0 = 0) : d = 0 := by
  unfold nibbleStep at h
  rw [Nat.xor_zero] at h
  have heq : (d >>> 4) &&& 0x0fff = crcTblAt (d &&& 15) :=
    Nat.xor_eq_zero.1 h
  have hle : (d >>> 4) &&& 0x0fff ≤ 4095 := Nat.and_le_right
  have hi0 : d &&& 15 = 0 := by
    by_contra hne
    have := crcTblAt_gt (d &&& 15) (and_fifteen_lt d) hne
    omega
  rw [hi0] at heq
  have htbl0 : crcTblAt 0 = 0 := rfl
  rw [htbl0] at heq
  have hdiv : d >>> 4 = d / 16 := by
    rw [Nat.shiftRight_eq_div_pow]
  have hdivlt : d / 16 < 4096 := by omega
  have hmask : (d >>> 4) &&& 0x0fff = d >>> 4 := by
    rw [hdiv]
    have := Nat.and_pow_two_sub_one_of_lt_two_pow
      (x := d / 16) (n := 12) (by norm_num; omega)
    norm_num at this ⊢
    exact this
  rw [hmask, hdiv] at heq
  have hmod : d &&& 15 = d % 16 := by
    have := Nat.and_pow_two_sub_one_eq_mod d 4
    norm_num at this ⊢
    exact this
  rw [hmod] at hi0
  omega

theorem byteStep_zero_kernel (d : Nat) (hd : d < 65536)
    (h : byteStep d 0 = 0) : d = 0 := by
  unfold byteStep at h
  have h1 : nibbleStep d 0 = 0 :=
    nibbleStep_zero_kernel (nibbleStep d 0) (nibbleStep_lt d 0) (by
      simpa using h)
  exact nibbleStep_zero_kernel d hd h1

theorem crcAcc_zeros_ne : ∀ (n : Nat) (d : Nat), d < 65536 → d ≠ 0 →
    crcAcc d (List.replicate n 0) ≠ 0 := by
  intro n
  induction n with
  | zero => intro d _ hne; exact hne
  | succ n ih =>
      intro d hd hne
      show crcAcc (byteStep d 0) (List.replicate n 0) ≠ 0
      exact ih (byteStep d 0) (byteStep_lt d 0)
        (fun h0 => hne (byteStep_zero_kernel d hd h0))

theorem byteStep_flip_ne : ∀ k < 8,
    byteStep 0 (2 ^ k) ≠ 0 ∧ byteStep 0 (2 ^ k) < 65536 := by decide

theorem crcAcc_zeros_zero : ∀ n : Nat,
    crcAcc 0 (List.replicate n 0) = 0 := by
  intro n
  induction n with
  | zero => rfl
  | succ n ih =>
      show crcAcc (byteStep 0 0) (List.replicate n 0) = 0
      have h00 : byteStep 0 0 = 0 := rfl
      rw [h00]
      exact ih

theorem xor_left_ne_self (a d : Nat) (h : d ≠ 0) : a ^^^ d ≠ a := by
  intro hEq
  apply h
  calc d = (a ^^^ a) ^^^ d := by rw [Nat.xor_self, Nat.zero_xor]
    _ = a ^^^ (a ^^^ d) := by rw [Nat.xor_assoc]
    _ = a ^^^ a := by rw [hEq]
    _ = 0 := Nat.xor_self a

theorem zipWith_xor_zero : ∀ xs : List Nat,
    List.zipWith (fun x e => x ^^^ e) xs
      (List.replicate xs.length 0) = xs := by
  intro xs
  induction xs with
  | nil => rfl
  | cons x xs ih =>
      show (x ^^^ 0) :: List.zipWith _ xs (List.replicate xs.length 0) = _
      rw [Nat.xor_zero, ih]

/-- Flipping bit k of the byte at position p is the pointwise xor with a
one-hot error vector. -/
theorem set_flip_as_zipWith : ∀ (xs : List Nat) (p k : Nat),
    p < xs.length →
    xs.set p (xs.getD p 0 ^^^ 2 ^ k) =
      List.zipWith (fun x e => x ^^^ e) xs
        (List.replicate p 0 ++ 2 ^ k :: List.replicate (xs.length - p - 1) 0) := by
  intro xs
  induction xs with
  | nil => intro p k hp; simp at hp
  | cons x xs ih =>
      intro p k hp
      cases p with
      | zero =>
          show (x ^^^ 2 ^ k) :: xs = (x ^^^ 2 ^ k) ::
            List.zipWith (fun x e => x ^^^ e) xs
              (List.replicate (xs.length + 1 - 0 - 1) 0)
          rw [show xs.length + 1 - 0 - 1 = xs.length by omega]
          rw [zipWith_xor_zero]
      | succ p =>
          have hp2 : p < xs.length := by
            simp only [List.length_cons] at hp
            omega
          have hlen3 : (x :: xs).length - (p + 1) - 1 =
              xs.length - p - 1 := by
            simp only [List.length_cons]
            omega
          rw [hlen3, List.replicate_succ, List.cons_append]
          show x :: xs.set p ((x :: xs).getD (p + 1) 0 ^^^ 2 ^ k) =
            (x ^^^ 0) :: List.zipWith (fun x e => x ^^^ e) xs
              (List.replicate p 0 ++ 2 ^ k ::
                List.replicate (xs.length - p - 1) 0)
          rw [Nat.xor_zero]
          have hgd : (x :: xs).getD (p + 1) 0 = xs.getD p 0 := rfl
          rw [hgd, ih p k hp2]

theorem xor_right_cancel (x y c : Nat) (h : x ^^^ c = y ^^^ c) :
    x = y := by
  have hx : (x ^^^ c) ^^^ c = x := by
    rw [Nat.xor_assoc, Nat.xor_self, Nat.xor_zero]
  have hy : (y ^^^ c) ^^^ c = y := by
    rw [Nat.xor_assoc, Nat.xor_self, Nat.xor_zero]
  rw [← hx, h, hy]

/-- qChecksum detects every single-bit error. -/
theorem qChecksum_flipAt (xs : List Nat) (p k : Nat) (hp : p < xs.length)
    (hk : k < 8) :
    qChecksum (xs.set p (xs.getD p 0 ^^^ 2 ^ k)) ≠ qChecksum xs := by
  unfold qChecksum
  intro hEq
  have hacc := xor_right_cancel _ _ _ hEq
  rw [set_flip_as_zipWith xs p k hp] at hacc
  have hlen : (List.replicate p (0 : Nat) ++ 2 ^ k ::
      List.replicate (xs.length - p - 1) 0).length = xs.length := by
    simp only [List.length_append, List.length_replicate,
      List.length_cons]
    omega
  have hlin := crcAcc_linear xs (List.replicate p 0 ++ 2 ^ k ::
    List.replicate (xs.length - p - 1) 0) 0xffff 0 hlen
  rw [Nat.xor_zero] at hlin
  rw [hlin] at hacc
  have hes : crcAcc 0 (List.replicate p 0 ++ 2 ^ k ::
      List.replicate (xs.length - p - 1) 0) ≠ 0 := by
    show (List.replicate p 0 ++ 2 ^ k ::
      List.replicate (xs.length - p - 1) 0).foldl byteStep 0 ≠ 0
    rw [List.foldl_append]
    have h0 : (List.replicate p (0 : Nat)).foldl byteStep 0 = 0 :=
      crcAcc_zeros_zero p
    rw [h0]
    show crcAcc (byteStep 0 (2 ^ k)) (List.replicate _ 0) ≠ 0
    obtain ⟨hne, hlt⟩ := byteStep_flip_ne k hk
    exact crcAcc_zeros_ne _ _ hlt hne
  exact xor_left_ne_self _ _ hes hacc

/-! ## beDecode is injective in each byte -/

theorem beDecode_fold_acc : ∀ (bs : List Nat) (acc : Nat),
    bs.foldl (fun a b => a * 256 + b % 256) acc =
      acc * 256 ^ bs.length + beDecode bs := by
  intro bs
  induction bs with
  | nil => intro acc; simp [beDecode]
  | cons b bs ih =>
      intro acc
      show bs.foldl _ (acc * 256 + b % 256) = _
      rw [ih]
      have hcons : beDecode (b :: bs) =
          (b % 256) * 256 ^ bs.length + beDecode bs := by
        show bs.foldl _ (0 * 256 + b % 256) = _
        rw [ih]
        ring
      rw [hcons, List.length_cons, pow_succ]
      ring

theorem beDecode_cons (b : Nat) (bs : List Nat) :
    beDecode (b :: bs) = (b % 256) * 256 ^ bs.length + beDecode bs := by
  show bs.foldl _ (0 * 256 + b % 256) = _
  rw [beDecode_fold_acc]
  ring

theorem beDecode_lt : ∀ bs : List Nat, beDecode bs < 256 ^ bs.length := by
  intro bs
  induction bs with
  | nil => simp [beDecode]
  | cons b bs ih =>
      rw [beDecode_cons, List.length_cons, pow_succ]
      have hb : b % 256 ≤ 255 := by omega
      have hP : 0 < 256 ^ bs.length := Nat.pos_pow_of_pos _ (by omega)
      calc (b % 256) * 256 ^ bs.length + beDecode bs
          ≤ 255 * 256 ^ bs.length + beDecode bs := by
            exact Nat.add_le_add_right
              (Nat.mul_le_mul_right _ hb) _
        _ < 255 * 256 ^ bs.length + 256 ^ bs.length := by omega
        _ = 256 ^ bs.length * 256 := by ring

theorem beDecode_set_ne : ∀ (bs : List Nat) (j b2 : Nat),
    j < bs.length → bs.getD j 0 < 256 → b2 < 256 → b2 ≠ bs.getD j 0 →
    beDecode (bs.set j b2) ≠ beDecode bs := by
  intro bs
  induction bs with
  | nil => intro j b2 hj; simp at hj
  | cons x bs ih =>
      intro j b2 hj hold hnew hne
      cases j with
      | zero =>
          show beDecode (b2 :: bs) ≠ beDecode (x :: bs)
          rw [beDecode_cons, beDecode_cons]
          have hgd : (x :: bs).getD 0 0 = x := rfl
          rw [hgd] at hold hne
          rw [Nat.mod_eq_of_lt hnew, Nat.mod_eq_of_lt hold]
          intro hEq
          have := Nat.add_right_cancel hEq
          have hP : 0 < 256 ^ bs.length := Nat.pos_pow_of_pos _ (by omega)
          exact hne (Nat.eq_of_mul_eq_mul_right hP this)
      | succ j =>
          show beDecode (x :: bs.set j b2) ≠ beDecode (x :: bs)
          rw [beDecode_cons, beDecode_cons, List.length_set]
          intro hEq
          have := Nat.add_left_cancel hEq
          exact ih j b2 (by simpa using Nat.lt_of_succ_lt_succ hj)
            hold hnew hne this

theorem beBytes_bytes_lt : ∀ (w v : Nat), ∀ b ∈ beBytes w v, b < 256 := by
  intro w
  induction w with
  | zero => intro v b hb; simp [beBytes] at hb
  | succ w ih =>
      intro v b hb
      rcases List.mem_cons.1 hb with hb | hb
      · rw [hb]; omega
      · exact ih v b hb

/-! ## Inversion of the body parse -/

theorem readBytes_some {n : Nat} {s a b : List Nat}
    (h : readBytes n s = some (a, b)) :
    n ≤ s.length ∧ a = s.take n ∧ b = s.drop n := by
  unfold readBytes at h
  by_cases hn : n ≤ s.length
  · rw [if_pos hn] at h
    have := Option.some.inj h
    exact ⟨hn, (congrArg Prod.fst this).symm, (congrArg Prod.snd this).symm⟩
  · rw [if_neg hn] at h
    exact absurd h (by simp)

theorem readBE_some {w : Nat} {s : List Nat} {v : Nat} {r : List Nat}
    (h : readBE w s = some (v, r)) :
    w ≤ s.length ∧ v = beDecode (s.take w) ∧ r = s.drop w := by
  unfold readBE at h
  cases hb : readBytes w s with
  | none => rw [hb] at h; exact absurd h (by simp)
  | some q =>
      rw [hb] at h
      obtain ⟨hn, ha, hr⟩ := readBytes_some hb
      have hpair : (beDecode q.1, q.2) = (v, r) := Option.some.inj h
      have hveq : beDecode q.1 = v := congrArg Prod.fst hpair
      have hreq : q.2 = r := congrArg Prod.snd hpair
      refine ⟨hn, ?_, ?_⟩
      · rw [← hveq, ha]
      · rw [← hreq, hr]

theorem readQByteArray_some {s nm r : List Nat}
    (h : readQByteArray s = some (nm, r)) :
    4 ≤ s.length ∧
    ((beDecode (s.take 4) = 4294967295 ∧ nm = []) ∨
     (nm = (s.drop 4).take (beDecode (s.take 4)) ∧
      r = (s.drop 4).drop (beDecode (s.take 4)) ∧
      beDecode (s.take 4) ≤ (s.drop 4).length)) := by
  unfold readQByteArray at h
  cases hb : readBE 4 s with
  | none => rw [hb] at h; exact absurd h (by simp)
  | some q =>
      rw [hb] at h
      obtain ⟨h4, hv, hr⟩ := readBE_some hb
      simp only [Option.some_bind] at h
      by_cases hnull : q.1 = 4294967295
      · rw [if_pos hnull] at h
        have hpair : (([] : List Nat), q.2) = (nm, r) := Option.some.inj h
        have hnm : ([] : List Nat) = nm := congrArg Prod.fst hpair
        refine ⟨h4, Or.inl ⟨by rw [← hv]; exact hnull, hnm.symm⟩⟩
      · rw [if_neg hnull] at h
        obtain ⟨hlen, ha, hb2⟩ := readBytes_some h
        refine ⟨h4, Or.inr ⟨?_, ?_, ?_⟩⟩
        · rw [ha, hr, hv]
        · rw [hb2, hr, hv]
        · rw [← hv, ← hr]; exact hlen

/-- What a successful body parse pins down: either the length field held
the null code and the identifier echo is empty, or the echo is exactly
the slice selected by the length field, the body covers all five fields,
and the decoded checksum is the big-endian value of the two bytes
following the instance id field. -/
theorem parse_some_shape (body nm : List Nat) (c2 i2 ck : Nat)
    (h : parseInitBody body = some (nm, c2, i2, ck)) :
    4 ≤ body.length ∧
    ((beDecode (body.take 4) = 4294967295 ∧ nm = []) ∨
     (nm.length = beDecode (body.take 4) ∧
      nm = (body.drop 4).take nm.length ∧
      11 + nm.length ≤ body.length ∧
      ck = beDecode ((body.drop (9 + nm.length)).take 2))) := by
  unfold parseInitBody at h
  cases hq : readQByteArray body with
  | none => rw [hq] at h; exact absurd h (by simp)
  | some q1 =>
      rw [hq] at h
      simp only [Option.some_bind] at h
      cases h1 : readBE 1 q1.2 with
      | none => rw [h1] at h; simp at h
      | some q2 =>
          rw [h1] at h
          simp only [Option.some_bind] at h
          cases h2 : readBE 4 q2.2 with
          | none => rw [h2] at h; simp at h
          | some q3 =>
              rw [h2] at h
              simp only [Option.some_bind] at h
              cases h3 : readBE 2 q3.2 with
              | none => rw [h3] at h; simp at h
              | some q4 =>
                  rw [h3] at h
                  simp only [Option.map_some'] at h
                  have htup := Option.some.inj h
                  have hnm : q1.1 = nm := congrArg (fun z => z.1) htup
                  have hck : q4.1 = ck := congrArg
                    (fun z => z.2.2.2) htup
                  obtain ⟨h4, hcase⟩ := readQByteArray_some
                    (show readQByteArray body = some (q1.1, q1.2) from
                      by rw [hq])
                  refine ⟨h4, ?_⟩
                  rcases hcase with ⟨hnull, hempty⟩ | ⟨ha, hr, hle⟩
                  · exact Or.inl ⟨hnull, by rw [← hnm]; exact hempty⟩
                  · obtain ⟨hl1, _, hr1⟩ := readBE_some h1
                    obtain ⟨hl2, _, hr2⟩ := readBE_some h2
                    obtain ⟨hl3, hv3, _⟩ := readBE_some h3
                    have hnml : nm.length = beDecode (body.take 4) := by
                      rw [← hnm, ha]
                      rw [List.length_take]
                      exact Nat.min_eq_left hle
                    have hq12 : q1.2 = body.drop (4 + nm.length) := by
                      rw [hr, ← hnml]
                      rw [List.drop_drop]
                    have hq22 : q2.2 = body.drop (5 + nm.length) := by
                      rw [hr1, hq12, List.drop_drop]
                      rw [show 4 + nm.length + 1 = 5 + nm.length by omega]
                    have hq32 : q3.2 = body.drop (9 + nm.length) := by
                      rw [hr2, hq22, List.drop_drop]
                      rw [show 5 + nm.length + 4 = 9 + nm.length by omega]
                    refine Or.inr ⟨hnml, by
                      rw [← hnm, ha, List.length_take,
                        Nat.min_eq_left hle], ?_, ?_⟩
                    · have hlen3 : q3.2.length =
                          body.length - (9 + nm.length) := by
                        rw [hq32, List.length_drop]
                      omega
                    · rw [← hck, hv3, hq32]

/-! ## getD helpers for byte lists -/

theorem getD_append_left {l1 l2 : List Nat} {p : Nat}
    (h : p < l1.length) : (l1 ++ l2).getD p 0 = l1.getD p 0 := by
  rw [List.getD_eq_getElem?_getD, List.getD_eq_getElem?_getD,
    List.getElem?_append_left h]

theorem getD_append_right {l1 l2 : List Nat} {p : Nat}
    (h : l1.length ≤ p) :
    (l1 ++ l2).getD p 0 = l2.getD (p - l1.length) 0 := by
  rw [List.getD_eq_getElem?_getD, List.getD_eq_getElem?_getD,
    List.getElem?_append_right h]

theorem getD_set_self {l : List Nat} {j a : Nat} (h : j < l.length) :
    (l.set j a).getD j 0 = a := by
  rw [List.getD_eq_getElem?_getD, List.getElem?_set_self h]
  rfl

theorem getD_lt_of_all {l : List Nat} {j : Nat}
    (h : ∀ x ∈ l, x < 256) (hj : j < l.length) : l.getD j 0 < 256 := by
  rw [List.getD_eq_getElem?_getD, List.getElem?_eq_getElem hj]
  exact h _ (List.getElem_mem hj)

theorem flip_byte_ne (x k : Nat) : x ^^^ 2 ^ k ≠ x :=
  xor_left_ne_self x (2 ^ k) (by positivity)

theorem flip_byte_lt {x k : Nat} (hx : x < 256) (hk : k < 8) :
    x ^^^ 2 ^ k < 256 := by
  have h2 : 2 ^ k < 256 := by
    calc 2 ^ k < 2 ^ 8 := Nat.pow_lt_pow_right (by omega) hk
      _ = 256 := by norm_num
  exact Nat.xor_lt_two_pow (n := 8) hx h2

/-- The right-associated decomposition of the serialized body. -/
theorem serializeInitBody_assoc (name : List Nat) (ct inst : Nat) :
    serializeInitBody name ct inst =
      beBytes 4 name.length ++ (name ++ ([ct % 256] ++ (beBytes 4 inst ++
        beBytes 2 (qChecksum (beBytes 4 name.length ++ name ++
          [ct % 256] ++ beBytes 4 inst))))) := by
  simp [serializeInitBody, List.append_assoc]

/-- A valid body of the exact serialized length pins down the length
field, the identifier slice and the checksum relation. -/
theorem valid_body_fields (expected body2 : List Nat)
    (hexp : expected ≠ [])
    (hlen2 : body2.length = 11 + expected.length)
    (hval : bodyValid expected body2 = true) :
    beDecode (body2.take 4) = expected.length ∧
    (body2.drop 4).take expected.length = expected ∧
    beDecode ((body2.drop (9 + expected.length)).take 2) =
      qChecksum (body2.take (9 + expected.length)) := by
  unfold bodyValid at hval
  cases hparse : parseInitBody body2 with
  | none => rw [hparse] at hval; simp at hval
  | some tup =>
      obtain ⟨nm, c2, i2, ck⟩ := tup
      rw [hparse] at hval
      simp only [Bool.and_eq_true, decide_eq_true_eq] at hval
      obtain ⟨hnm, hck2⟩ := hval
      obtain ⟨h4, hcase⟩ := parse_some_shape body2 nm c2 i2 ck hparse
      rcases hcase with ⟨_, hnil⟩ | ⟨hnml, hslice, hfit, hckbe⟩
      · rw [hnm] at hnil
        exact absurd hnil hexp
      · rw [hnm] at hnml hslice hckbe
        refine ⟨hnml.symm, hslice.symm, ?_⟩
        rw [← hckbe, hck2, hlen2]
        rw [show 11 + expected.length - 2 = 9 + expected.length by omega]

/-- Flipping any single bit of the serialized handshake body makes the
validity test of readInitMessageBody fail. -/
theorem bodyValid_flip_false (name : List Nat) (ct inst q k : Nat)
    (hname : name ≠ []) (hlen : name.length < 4294967295)
    (hq : q < 11 + name.length) (hk : k < 8) :
    bodyValid name ((serializeInitBody name ct inst).set q ((serializeInitBody name ct inst).getD q 0 ^^^ 2 ^ k)) = false := by
  by_contra hcontra
  rw [Bool.not_eq_false] at hcontra
  have hB : serializeInitBody name ct inst =
      (beBytes 4 name.length ++ name ++ [ct % 256] ++ beBytes 4 inst) ++ beBytes 2 (qChecksum (beBytes 4 name.length ++ name ++ [ct % 256] ++ beBytes 4 inst)) := rfl
  have hClen : (beBytes 4 name.length ++ name ++ [ct % 256] ++ beBytes 4 inst).length = 9 + name.length := by
    simp only [List.length_append, beBytes_length, List.length_cons,
      List.length_nil]
    omega
  have hBlen2 : ((serializeInitBody name ct inst).set q ((serializeInitBody name ct inst).getD q 0 ^^^ 2 ^ k)).length = 11 + name.length := by
    rw [List.length_set, serializeInitBody_length]
  obtain ⟨hf1, hf2, hf3⟩ := valid_body_fields name _ hname hBlen2 hcontra
  have htakeC : (serializeInitBody name ct inst).take (9 + name.length) = beBytes 4 name.length ++ name ++ [ct % 256] ++ beBytes 4 inst := by
    rw [hB]
    exact List.take_left' hClen
  have hdropC : (serializeInitBody name ct inst).drop (9 + name.length) = beBytes 2 (qChecksum (beBytes 4 name.length ++ name ++ [ct % 256] ++ beBytes 4 inst)) := by
    rw [hB]
    exact List.drop_left' hClen
  have h2K : beDecode (beBytes 2 (qChecksum (beBytes 4 name.length ++ name ++ [ct % 256] ++ beBytes 4 inst))) = qChecksum (beBytes 4 name.length ++ name ++ [ct % 256] ++ beBytes 4 inst) := by
    rw [beDecode_beBytes]
    have hqc := qChecksum_lt (beBytes 4 name.length ++ name ++ [ct % 256] ++ beBytes 4 inst)
    have h16 : (65536 : Nat) = 2 ^ (8 * 2) := by norm_num
    exact Nat.mod_eq_of_lt (h16 ▸ hqc)
  rcases Nat.lt_or_ge q 4 with hq4 | hq4
  · -- flip inside the 4-byte length field
    have hB4 : (serializeInitBody name ct inst).take 4 = beBytes 4 name.length := by
      rw [serializeInitBody_assoc]
      exact List.take_left' (beBytes_length 4 _)
    have hgd : (serializeInitBody name ct inst).getD q 0 = (beBytes 4 name.length).getD q 0 := by
      rw [serializeInitBody_assoc]
      exact getD_append_left (by rw [beBytes_length]; omega)
    have ht4 : ((serializeInitBody name ct inst).set q ((serializeInitBody name ct inst).getD q 0 ^^^ 2 ^ k)).take 4 =
        (beBytes 4 name.length).set q
          ((beBytes 4 name.length).getD q 0 ^^^ 2 ^ k) := by
      rw [List.set_take, hB4, hgd]
    rw [ht4] at hf1
    have hj4 : q < (beBytes 4 name.length).length := by
      rw [beBytes_length]; omega
    have hgdlt : (beBytes 4 name.length).getD q 0 < 256 :=
      getD_lt_of_all (beBytes_bytes_lt 4 name.length) hj4
    have hne := beDecode_set_ne (beBytes 4 name.length) q
      ((beBytes 4 name.length).getD q 0 ^^^ 2 ^ k) hj4 hgdlt
      (flip_byte_lt hgdlt hk) (flip_byte_ne _ k)
    have hdec : beDecode (beBytes 4 name.length) = name.length := by
      rw [beDecode_beBytes]
      exact Nat.mod_eq_of_lt (by norm_num; omega)
    exact hne (by rw [hf1, hdec])
  rcases Nat.lt_or_ge q (4 + name.length) with hqn | hqn
  · -- flip inside the identifier bytes
    have hdrop4 : (serializeInitBody name ct inst).drop 4 =
        name ++ ([ct % 256] ++ (beBytes 4 inst ++
          beBytes 2 (qChecksum (beBytes 4 name.length ++ name ++ [ct % 256] ++ beBytes 4 inst)))) := by
      rw [serializeInitBody_assoc]
      exact List.drop_left' (beBytes_length 4 _)
    have hgd : (serializeInitBody name ct inst).getD q 0 = name.getD (q - 4) 0 := by
      rw [serializeInitBody_assoc]
      rw [getD_append_right (by rw [beBytes_length]; omega)]
      rw [beBytes_length]
      exact getD_append_left (by omega)
    have hsl : ((serializeInitBody name ct inst).set q ((serializeInitBody name ct inst).getD q 0 ^^^ 2 ^ k)).drop 4 =
        ((serializeInitBody name ct inst).drop 4).set (q - 4) ((serializeInitBody name ct inst).getD q 0 ^^^ 2 ^ k) := by
      rw [List.drop_set, if_neg (by omega)]
    have htk : (((serializeInitBody name ct inst).drop 4).set (q - 4) ((serializeInitBody name ct inst).getD q 0 ^^^ 2 ^ k)).take name.length =
        name.set (q - 4) ((serializeInitBody name ct inst).getD q 0 ^^^ 2 ^ k) := by
      rw [List.set_take, hdrop4, List.take_left' rfl]
    rw [hsl, htk, hgd] at hf2
    have hjn : q - 4 < name.length := by omega
    have hgds := getD_set_self
      (l := name) (j := q - 4) (a := name.getD (q - 4) 0 ^^^ 2 ^ k) hjn
    rw [hf2] at hgds
    exact flip_byte_ne (name.getD (q - 4) 0) k hgds.symm
  rcases Nat.lt_or_ge q (9 + name.length) with hqc | hqc
  · -- flip inside the type or instance id bytes
    have hgd : (serializeInitBody name ct inst).getD q 0 = (beBytes 4 name.length ++ name ++ [ct % 256] ++ beBytes 4 inst).getD q 0 := by
      rw [hB]
      exact getD_append_left (by omega)
    have hdrop2 : ((serializeInitBody name ct inst).set q ((serializeInitBody name ct inst).getD q 0 ^^^ 2 ^ k)).drop (9 + name.length) =
        beBytes 2 (qChecksum (beBytes 4 name.length ++ name ++ [ct % 256] ++ beBytes 4 inst)) := by
      rw [List.drop_set, if_pos (by omega), hdropC]
    have htk2 : ((serializeInitBody name ct inst).set q ((serializeInitBody name ct inst).getD q 0 ^^^ 2 ^ k)).take (9 + name.length) =
        (beBytes 4 name.length ++ name ++ [ct % 256] ++ beBytes 4 inst).set q ((beBytes 4 name.length ++ name ++ [ct % 256] ++ beBytes 4 inst).getD q 0 ^^^ 2 ^ k) := by
      rw [List.set_take, htakeC, hgd]
    rw [hdrop2, htk2] at hf3
    rw [List.take_of_length_le (by rw [beBytes_length]), h2K] at hf3
    exact qChecksum_flipAt (beBytes 4 name.length ++ name ++ [ct % 256] ++ beBytes 4 inst) q k (by omega) hk hf3.symm
  · -- flip inside the stored checksum bytes
    have hgd : (serializeInitBody name ct inst).getD q 0 =
        (beBytes 2 (qChecksum (beBytes 4 name.length ++ name ++ [ct % 256] ++ beBytes 4 inst))).getD (q - (9 + name.length)) 0 := by
      rw [hB]
      rw [getD_append_right (by omega)]
      rw [hClen]
    have hdrop2 : ((serializeInitBody name ct inst).set q ((serializeInitBody name ct inst).getD q 0 ^^^ 2 ^ k)).drop (9 + name.length) =
        (beBytes 2 (qChecksum (beBytes 4 name.length ++ name ++ [ct % 256] ++ beBytes 4 inst))).set (q - (9 + name.length)) ((serializeInitBody name ct inst).getD q 0 ^^^ 2 ^ k) := by
      rw [List.drop_set, if_neg (by omega), hdropC]
    have htk2 : ((serializeInitBody name ct inst).set q ((serializeInitBody name ct inst).getD q 0 ^^^ 2 ^ k)).take (9 + name.length) =
        beBytes 4 name.length ++ name ++ [ct % 256] ++ beBytes 4 inst := by
      rw [List.set_take, htakeC]
      exact List.set_eq_of_length_le (by omega)
    rw [hdrop2, htk2, hgd] at hf3
    have hj2 : q - (9 + name.length) < (beBytes 2 (qChecksum (beBytes 4 name.length ++ name ++ [ct % 256] ++ beBytes 4 inst))).length := by
      rw [beBytes_length]; omega
    have hgdlt : (beBytes 2 (qChecksum (beBytes 4 name.length ++ name ++ [ct % 256] ++ beBytes 4 inst))).getD (q - (9 + name.length)) 0 <
        256 := getD_lt_of_all (beBytes_bytes_lt 2 _) hj2
    rw [List.take_of_length_le (by rw [List.length_set, beBytes_length])]
      at hf3
    have hne := beDecode_set_ne (beBytes 2 (qChecksum (beBytes 4 name.length ++ name ++ [ct % 256] ++ beBytes 4 inst)))
      (q - (9 + name.length))
      ((beBytes 2 (qChecksum (beBytes 4 name.length ++ name ++ [ct % 256] ++ beBytes 4 inst))).getD (q - (9 + name.length)) 0 ^^^ 2 ^ k)
      hj2 hgdlt (flip_byte_lt hgdlt hk) (flip_byte_ne _ k)
    exact hne (by rw [hf3, h2K])

theorem bodyValid_true_parse {expected body2 : List Nat}
    (h : bodyValid expected body2 = true) :
    ∃ c2 i2 ck, parseInitBody body2 = some (expected, c2, i2, ck) := by
  unfold bodyValid at h
  cases hp : parseInitBody body2 with
  | none => rw [hp] at h; simp at h
  | some tup =>
      obtain ⟨nm, c2, i2, ck⟩ := tup
      rw [hp] at h
      simp only [Bool.and_eq_true, decide_eq_true_eq] at h
      exact ⟨c2, i2, ck, by rw [← h.1]⟩

/-- No strict prefix of the serialized handshake body passes
validation: a truncated body always under-runs one of the field
reads. -/
theorem bodyValid_prefix_false (name : List Nat) (ct inst m : Nat)
    (hname : name ≠ []) (hm : m < 11 + name.length) :
    bodyValid name ((serializeInitBody name ct inst).take m) = false := by
  by_contra hcontra
  rw [Bool.not_eq_false] at hcontra
  obtain ⟨c2, i2, ck, hparse⟩ := bodyValid_true_parse hcontra
  obtain ⟨h4, hcase⟩ := parse_some_shape _ _ _ _ _ hparse
  have hmlen : ((serializeInitBody name ct inst).take m).length = m := by
    rw [List.length_take, serializeInitBody_length]
    omega
  rcases hcase with ⟨_, hnil⟩ | ⟨_, _, hfit, _⟩
  · exact hname hnil
  · rw [hmlen] at hfit
    omega

/-- Flipping any single bit of the serialized handshake stream keeps
the connection out of the Connected stage and never raises
instance-started: the flip is caught by the length framing, the
identifier comparison or the checksum. -/
theorem flipped_stream_rejected (o : Opts) (name : List Nat)
    (ct inst p k : Nat) (hname : name ≠ [])
    (hlen : name.length < 4294967295)
    (hp : p < (serializeInitMessage name ct inst).length) (hk : k < 8) :
    (feedChunks o name initialConn
      [(serializeInitMessage name ct inst).set p ((serializeInitMessage name ct inst).getD p 0 ^^^ 2 ^ k)]).1.stage ≠
      Stage.connected ∧
    Event.instanceStarted ∉ (feedChunks o name initialConn
      [(serializeInitMessage name ct inst).set p ((serializeInitMessage name ct inst).getD p 0 ^^^ 2 ^ k)]).2 := by
  have hbl : (serializeInitBody name ct inst).length = 11 + name.length :=
    serializeInitBody_length name ct inst
  have hmsg : serializeInitMessage name ct inst =
      beBytes 8 (11 + name.length) ++ serializeInitBody name ct inst := by
    unfold serializeInitMessage
    rw [serializeInitBody_length]
  have hmlen : (serializeInitMessage name ct inst).length = 19 + name.length := by
    rw [hmsg, List.length_append, beBytes_length, hbl]
    omega
  have hdecH : beDecode (beBytes 8 (11 + name.length)) =
      11 + name.length := by
    rw [beDecode_beBytes]
    exact Nat.mod_eq_of_lt (by norm_num; omega)
  have hfeed : ∀ cst : Conn × List Event,
      deliver o name initialConn
        ((serializeInitMessage name ct inst).set p ((serializeInitMessage name ct inst).getD p 0 ^^^ 2 ^ k)) = cst →
      feedChunks o name initialConn
        [(serializeInitMessage name ct inst).set p ((serializeInitMessage name ct inst).getD p 0 ^^^ 2 ^ k)] =
        (cst.1, cst.2 ++ []) := by
    intro cst hc
    show ((feedChunks o name
        (deliver o name initialConn _).1 []).1, _) = _
    rw [hc]
    rfl
  have hopen : deliver o name initialConn
      ((serializeInitMessage name ct inst).set p ((serializeInitMessage name ct inst).getD p 0 ^^^ 2 ^ k)) =
      readHeaderStep o name
        { stage := Stage.header, messageLength := 0, instanceId := 0,
           buffer := (serializeInitMessage name ct inst).set p ((serializeInitMessage name ct inst).getD p 0 ^^^ 2 ^ k),
           closed := false } := by
    rw [deliver_open o name initialConn _ rfl]
    rw [readyRead_header o name _ rfl]
    show readHeaderStep o name
      { stage := Stage.header, messageLength := 0, instanceId := 0,
         buffer := [] ++ (serializeInitMessage name ct inst).set p ((serializeInitMessage name ct inst).getD p 0 ^^^ 2 ^ k),
         closed := false } = _
    rw [List.nil_append]
  have hFlen : ((serializeInitMessage name ct inst).set p ((serializeInitMessage name ct inst).getD p 0 ^^^ 2 ^ k)).length =
      19 + name.length := by
    rw [List.length_set, hmlen]
  rcases Nat.lt_or_ge p 8 with hp8 | hp8
  · -- flip in the 8-byte length header
    have hgd : (serializeInitMessage name ct inst).getD p 0 = (beBytes 8 (11 + name.length)).getD p 0 := by
      rw [hmsg]
      exact getD_append_left (by rw [beBytes_length]; omega)
    have hsplitF : (serializeInitMessage name ct inst).set p ((serializeInitMessage name ct inst).getD p 0 ^^^ 2 ^ k) =
        (beBytes 8 (11 + name.length)).set p
          ((beBytes 8 (11 + name.length)).getD p 0 ^^^ 2 ^ k) ++
        serializeInitBody name ct inst := by
      rw [hgd, hmsg]
      exact List.set_append_left p _ (by rw [beBytes_length]; omega)
    have hhdlen : ((beBytes 8 (11 + name.length)).set p
        ((beBytes 8 (11 + name.length)).getD p 0 ^^^ 2 ^ k)).length =
        8 := by
      rw [List.length_set, beBytes_length]
    have htake8 : ((serializeInitMessage name ct inst).set p ((serializeInitMessage name ct inst).getD p 0 ^^^ 2 ^ k)).take 8 =
        (beBytes 8 (11 + name.length)).set p
          ((beBytes 8 (11 + name.length)).getD p 0 ^^^ 2 ^ k) := by
      rw [hsplitF]
      exact List.take_left' hhdlen
    have hdrop8 : ((serializeInitMessage name ct inst).set p ((serializeInitMessage name ct inst).getD p 0 ^^^ 2 ^ k)).drop 8 =
        serializeInitBody name ct inst := by
      rw [hsplitF]
      exact List.drop_left' hhdlen
    have hj8 : p < (beBytes 8 (11 + name.length)).length := by
      rw [beBytes_length]; omega
    have hgdlt : (beBytes 8 (11 + name.length)).getD p 0 < 256 :=
      getD_lt_of_all (beBytes_bytes_lt 8 _) hj8
    have hLne : beDecode ((beBytes 8 (11 + name.length)).set p
        ((beBytes 8 (11 + name.length)).getD p 0 ^^^ 2 ^ k)) ≠
        11 + name.length := by
      intro hEq
      exact beDecode_set_ne (beBytes 8 (11 + name.length)) p
        ((beBytes 8 (11 + name.length)).getD p 0 ^^^ 2 ^ k) hj8 hgdlt
        (flip_byte_lt hgdlt hk) (flip_byte_ne _ k)
        (by rw [hEq, hdecH])
    rcases Nat.lt_or_ge (beDecode ((beBytes 8 (11 + name.length)).set p
        ((beBytes 8 (11 + name.length)).getD p 0 ^^^ 2 ^ k)))
        (11 + name.length) with hLlt | hLge
    · -- announced length shrank: the truncated body fails validation
      have hstep : readHeaderStep o name
          { stage := Stage.header, messageLength := 0, instanceId := 0,
             buffer := (serializeInitMessage name ct inst).set p ((serializeInitMessage name ct inst).getD p 0 ^^^ 2 ^ k),
             closed := false } =
          readBodyStep o name
            { stage := Stage.body,
               messageLength := beDecode
                 (((serializeInitMessage name ct inst).set p ((serializeInitMessage name ct inst).getD p 0 ^^^ 2 ^ k)).take 8),
               instanceId := 0,
               buffer := ((serializeInitMessage name ct inst).set p ((serializeInitMessage name ct inst).getD p 0 ^^^ 2 ^ k)).drop 8,
               closed := false } := by
        rw [readHeaderStep_full o name _
          (by show ¬ ((serializeInitMessage name ct inst).set p _).length < 8; rw [hFlen]; omega)
          (by show beDecode (((serializeInitMessage name ct inst).set p _).take 8) ≤
                (((serializeInitMessage name ct inst).set p _).drop 8).length
              rw [htake8, hdrop8, hbl]
              omega)]
      have hinval := readBodyStep_invalid o name
        { stage := Stage.body,
           messageLength := beDecode
             (((serializeInitMessage name ct inst).set p ((serializeInitMessage name ct inst).getD p 0 ^^^ 2 ^ k)).take 8),
           instanceId := 0,
           buffer := ((serializeInitMessage name ct inst).set p ((serializeInitMessage name ct inst).getD p 0 ^^^ 2 ^ k)).drop 8,
           closed := false }
        (by show beDecode (((serializeInitMessage name ct inst).set p _).take 8) ≤
              (((serializeInitMessage name ct inst).set p _).drop 8).length
            rw [htake8, hdrop8, hbl]
            omega)
        (by show bodyValid name ((((serializeInitMessage name ct inst).set p _).drop 8).take
              (beDecode (((serializeInitMessage name ct inst).set p _).take 8))) = false
            rw [htake8, hdrop8]
            exact bodyValid_prefix_false name ct inst _ hname hLlt)
      obtain ⟨hcl, hev⟩ := closeSocket_events
        { stage := Stage.body,
           messageLength := beDecode
             (((serializeInitMessage name ct inst).set p ((serializeInitMessage name ct inst).getD p 0 ^^^ 2 ^ k)).take 8),
           instanceId := 0,
           buffer := (((serializeInitMessage name ct inst).set p ((serializeInitMessage name ct inst).getD p 0 ^^^ 2 ^ k)).drop 8).drop
             (beDecode (((serializeInitMessage name ct inst).set p ((serializeInitMessage name ct inst).getD p 0 ^^^ 2 ^ k)).take 8)),
           closed := false }
      rw [hfeed _ rfl, hopen, hstep, hinval]
      constructor
      · show Stage.body ≠ Stage.connected
        intro hcontra
        exact Stage.noConfusion hcontra
      · intro hmem
        rw [List.append_nil] at hmem
        rcases hev with hev | hev
        · rw [hev] at hmem
          simp at hmem
        · rw [hev] at hmem
          simp at hmem
    · -- announced length grew: the body never completes
      have hstep : readHeaderStep o name
          { stage := Stage.header, messageLength := 0, instanceId := 0,
             buffer := (serializeInitMessage name ct inst).set p ((serializeInitMessage name ct inst).getD p 0 ^^^ 2 ^ k),
             closed := false } =
          ({ stage := Stage.body,
              messageLength := beDecode
                (((serializeInitMessage name ct inst).set p ((serializeInitMessage name ct inst).getD p 0 ^^^ 2 ^ k)).take 8),
              instanceId := 0,
              buffer := ((serializeInitMessage name ct inst).set p ((serializeInitMessage name ct inst).getD p 0 ^^^ 2 ^ k)).drop 8,
              closed := false }, []) := by
        rw [readHeaderStep_incomplete o name _
          (by show ¬ ((serializeInitMessage name ct inst).set p _).length < 8; rw [hFlen]; omega)
          (by show ¬ beDecode (((serializeInitMessage name ct inst).set p _).take 8) ≤
                (((serializeInitMessage name ct inst).set p _).drop 8).length
              rw [htake8, hdrop8, hbl]
              omega)]
      rw [hfeed _ rfl, hopen, hstep]
      constructor
      · show Stage.body ≠ Stage.connected
        intro hcontra
        exact Stage.noConfusion hcontra
      · intro hmem
        simp at hmem
  · -- flip in the body
    have hgd : (serializeInitMessage name ct inst).getD p 0 = (serializeInitBody name ct inst).getD (p - 8) 0 := by
      rw [hmsg]
      rw [getD_append_right (by rw [beBytes_length]; omega)]
      rw [beBytes_length]
    have hsplitF : (serializeInitMessage name ct inst).set p ((serializeInitMessage name ct inst).getD p 0 ^^^ 2 ^ k) =
        beBytes 8 (11 + name.length) ++
        (serializeInitBody name ct inst).set (p - 8) ((serializeInitBody name ct inst).getD (p - 8) 0 ^^^ 2 ^ k) := by
      rw [hgd, hmsg]
      rw [List.set_append_right p _ (by rw [beBytes_length]; omega)]
      rw [beBytes_length]
    have hflen : ((serializeInitBody name ct inst).set (p - 8)
        ((serializeInitBody name ct inst).getD (p - 8) 0 ^^^ 2 ^ k)).length = 11 + name.length := by
      rw [List.length_set, hbl]
    have htake8 : ((serializeInitMessage name ct inst).set p ((serializeInitMessage name ct inst).getD p 0 ^^^ 2 ^ k)).take 8 =
        beBytes 8 (11 + name.length) := by
      rw [hsplitF]
      exact List.take_left' (beBytes_length 8 _)
    have hdrop8 : ((serializeInitMessage name ct inst).set p ((serializeInitMessage name ct inst).getD p 0 ^^^ 2 ^ k)).drop 8 =
        (serializeInitBody name ct inst).set (p - 8) ((serializeInitBody name ct inst).getD (p - 8) 0 ^^^ 2 ^ k) := by
      rw [hsplitF]
      exact List.drop_left' (beBytes_length 8 _)
    have hstep : readHeaderStep o name
        { stage := Stage.header, messageLength := 0, instanceId := 0,
           buffer := (serializeInitMessage name ct inst).set p ((serializeInitMessage name ct inst).getD p 0 ^^^ 2 ^ k),
           closed := false } =
        readBodyStep o name
          { stage := Stage.body,
             messageLength := beDecode
               (((serializeInitMessage name ct inst).set p ((serializeInitMessage name ct inst).getD p 0 ^^^ 2 ^ k)).take 8),
             instanceId := 0,
             buffer := ((serializeInitMessage name ct inst).set p ((serializeInitMessage name ct inst).getD p 0 ^^^ 2 ^ k)).drop 8,
             closed := false } := by
      rw [readHeaderStep_full o name _
        (by show ¬ ((serializeInitMessage name ct inst).set p _).length < 8; rw [hFlen]; omega)
        (by show beDecode (((serializeInitMessage name ct inst).set p _).take 8) ≤
              (((serializeInitMessage name ct inst).set p _).drop 8).length
            rw [htake8, hdrop8, hdecH, hflen])]
    have hinval := readBodyStep_invalid o name
      { stage := Stage.body,
         messageLength := beDecode
           (((serializeInitMessage name ct inst).set p ((serializeInitMessage name ct inst).getD p 0 ^^^ 2 ^ k)).take 8),
         instanceId := 0,
         buffer := ((serializeInitMessage name ct inst).set p ((serializeInitMessage name ct inst).getD p 0 ^^^ 2 ^ k)).drop 8,
         closed := false }
      (by show beDecode (((serializeInitMessage name ct inst).set p _).take 8) ≤
            (((serializeInitMessage name ct inst).set p _).drop 8).length
          rw [htake8, hdrop8, hdecH, hflen])
      (by show bodyValid name ((((serializeInitMessage name ct inst).set p _).drop 8).take
            (beDecode (((serializeInitMessage name ct inst).set p _).take 8))) = false
          rw [htake8, hdrop8, hdecH]
          rw [List.take_of_length_le (by rw [hflen])]
          exact bodyValid_flip_false name ct inst (p - 8) k hname hlen
            (by omega) hk)
    obtain ⟨hcl, hev⟩ := closeSocket_events
      { stage := Stage.body,
         messageLength := beDecode
           (((serializeInitMessage name ct inst).set p ((serializeInitMessage name ct inst).getD p 0 ^^^ 2 ^ k)).take 8),
         instanceId := 0,
         buffer := (((serializeInitMessage name ct inst).set p ((serializeInitMessage name ct inst).getD p 0 ^^^ 2 ^ k)).drop 8).drop
           (beDecode (((serializeInitMessage name ct inst).set p ((serializeInitMessage name ct inst).getD p 0 ^^^ 2 ^ k)).take 8)),
         closed := false }
    rw [hfeed _ rfl, hopen, hstep, hinval]
    constructor
    · show Stage.body ≠ Stage.connected
      intro hcontra
      exact Stage.noConfusion hcontra
    · intro hmem
      rw [List.append_nil] at hmem
      rcases hev with hev | hev
      · rw [hev] at hmem
        simp at hmem
      · rw [hev] at hmem
        simp at hmem

/-! ## C6 -/

/-- Claim C6: serializing a handshake as the Connector does and parsing
it as the Listener does yields back the identifier, connection type and
instance id and passes checksum validation (the fresh connection lands
in Connected carrying the sent instance id); and flipping any single bit
anywhere in the serialized bytes makes validation fail - the connection
never reaches Connected and instance-started is never raised. -/
theorem handshake_roundtrip_flip (o : Opts) (name : List Nat)
    (ct inst : Nat) (hname : name ≠ [])
    (hlen : name.length < 4294967295) (hct : ct < 256)
    (hinst : inst < 4294967296) :
    parseInitBody (serializeInitBody name ct inst) =
      some (name, ct, inst,
        qChecksum (beBytes 4 name.length ++ name ++ [ct % 256] ++
          beBytes 4 inst)) ∧
    bodyValid name (serializeInitBody name ct inst) = true ∧
    feedChunks o name initialConn [serializeInitMessage name ct inst] =
      ({ stage := Stage.connected, messageLength := 11 + name.length,
         instanceId := inst, buffer := [], closed := false },
       if ct = 1 ∨ (ct = 2 ∧ o.secondaryNotification = true)
         then [Event.instanceStarted] else []) ∧
    (∀ p k, p < (serializeInitMessage name ct inst).length → k < 8 →
      (feedChunks o name initialConn
        [(serializeInitMessage name ct inst).set p
          ((serializeInitMessage name ct inst).getD p 0 ^^^
            2 ^ k)]).1.stage ≠ Stage.connected ∧
      Event.instanceStarted ∉ (feedChunks o name initialConn
        [(serializeInitMessage name ct inst).set p
          ((serializeInitMessage name ct inst).getD p 0 ^^^
            2 ^ k)]).2) := by
  refine ⟨?_, serializeInitBody_valid name ct inst hlen,
    feed_serialized o name ct inst hlen hct hinst, ?_⟩
  · rw [parse_serialize name ct inst hlen, Nat.mod_eq_of_lt hct,
      Nat.mod_eq_of_lt hinst]
  · intro p k hp hk
    exact flipped_stream_rejected o name ct inst p k hname hlen hp hk

theorem handshake_roundtrip_flip_witness :
    bodyValid [65] (serializeInitBody [65] 1 5) = true ∧
    (feedChunks ⟨false, false, false, false⟩ [65] initialConn
      [(serializeInitMessage [65] 1 5).set 0
        ((serializeInitMessage [65] 1 5).getD 0 0 ^^^ 2 ^ 0)]).1.stage ≠
      Stage.connected := by
  have h := handshake_roundtrip_flip ⟨false, false, false, false⟩ [65]
    1 5 (by decide) (by decide) (by decide) (by decide)
  exact ⟨h.2.1, (h.2.2.2 0 0 (by decide) (by decide)).1⟩

end SingleApp
